import Mathlib

/-!
Verification development for the ts-memory-agent memory storage subsystem.

The model shallowly embeds the two storage backends (`SqliteStorage` of
src/memory/sqlite-storage.ts and `RedisStorage` of src/memory/redis-storage.ts)
and the `ProjectMemory` facade (src/memory/project-memory.ts).

Modelling commitments, uniform throughout:
* JS numbers are modelled as exact rationals `ℚ`; a possibly-non-finite JS
  value (NaN or ±∞, arising from dividing by zero or indexing past the end of
  an array) is modelled as `Option ℚ` with `none` for the non-finite case.
* Timestamps (`Date.now()`, ISO strings compared lexicographically) are
  modelled as integers `ℤ` counting seconds; one day is `24 * 60 * 60`.
* The SQLite table `project_memories` is a `List SRow` in rowid order; a SQL
  `SELECT` without `ORDER BY` returns rowid order, `ORDER BY` is a stable sort
  on the given keys, `LIMIT n` is `List.take n`.
* A Redis instance bound to one `keyPrefix` (which embeds the projectId) is
  modelled by the projection of the keyspace onto that prefix: entry records,
  embedding records (each with their expiry time) and the per-project sorted
  sets.  A key whose expiry time has passed behaves as absent.
* `uuidv4()` and `new Date()` are modelled by explicit `id`/`now` parameters.
* JS `x || d` on an optional numeric `x` yields `d` when `x` is absent or `0`.
* `Array.prototype.sort` (guaranteed stable) is modelled by a stable insertion
  sort with the boolean comparator derived from the JS compare callback; a
  comparator returning NaN is treated as `0` per `SortCompare`.
-/

/-! Kernel-evaluable rational arithmetic.  Batteries marks `Rat.add`,
`Rat.mul`, `Rat.div` (and the `OfScientific` decimal literals) as
irreducible, which blocks kernel evaluation (`decide`) of concrete model
runs; the wrappers below compute with `mkRat`, and the `…_eq` theorems
certify that they are exactly the standard operations.  Decimal constants
appearing in the source (`0.8`, `0.5`) are written `mkRat 8 10`,
`mkRat 5 10`, certified below. -/

def qadd (a b : ℚ) : ℚ := mkRat (a.num * b.den + b.num * a.den) (a.den * b.den)

theorem qadd_eq (a b : ℚ) : qadd a b = a + b := by
  rw [qadd, Rat.add_def, Rat.normalize_eq_mkRat]

def qmul (a b : ℚ) : ℚ := mkRat (a.num * b.num) (a.den * b.den)

theorem qmul_eq (a b : ℚ) : qmul a b = a * b := by
  rw [qmul, Rat.mul_def, Rat.normalize_eq_mkRat]

def qdiv (a b : ℚ) : ℚ := Rat.divInt (a.num * b.den) (a.den * b.num)

theorem qdiv_eq (a b : ℚ) : qdiv a b = a / b := by
  rw [qdiv, Rat.div_def']

theorem mkRat_8_10 : mkRat 8 10 = 0.8 := by norm_num

theorem mkRat_5_10 : mkRat 5 10 = 0.5 := by norm_num

/-- JS `x || d` for an optional natural: `undefined` and `0` are falsy. -/
def jsOrNat (x : Option ℕ) (d : ℕ) : ℕ :=
  match x with
  | some n => if n = 0 then d else n
  | none => d

/-- Lexicographic comparison of char lists by code point (used to model the
tie order of Redis sorted-set members). -/
def charListLt : List Char → List Char → Bool
  | [], [] => false
  | [], _ :: _ => true
  | _ :: _, [] => false
  | a :: as, b :: bs =>
    if a.val < b.val then true
    else if b.val < a.val then false
    else charListLt as bs

/-- Does `pat` occur at the head of `s`? (char-list helper). -/
def headMatch : List Char → List Char → Bool
  | [], _ => true
  | _ :: _, [] => false
  | a :: as, b :: bs => (a == b) && headMatch as bs

/-- Does `s` contain `pat` as a contiguous run? (char-list substring test,
models JS `String.prototype.includes`). -/
def containsRun (s pat : List Char) : Bool :=
  match s with
  | [] => pat.isEmpty
  | _ :: rest => headMatch pat s || containsRun rest pat

/-- ASCII lowercase of a string as a char list; models JS `toLowerCase` and
SQLite's ASCII-only case folding for the characters exercised here. -/
def lowerChars (s : String) : List Char :=
  s.data.map Char.toLower

/-- SQL `LIKE` matching with explicit fuel (structural recursion so that the
kernel can evaluate it); `likeMatch` below supplies always-sufficient fuel. -/
def likeMatchF : ℕ → List Char → List Char → Bool
  | 0, _, _ => false
  | _ + 1, [], s => s.isEmpty
  | f + 1, '%' :: p, [] => likeMatchF f p []
  | f + 1, '%' :: p, c :: s => likeMatchF f p (c :: s) || likeMatchF f ('%' :: p) s
  | _ + 1, '_' :: _, [] => false
  | f + 1, '_' :: p, _ :: s => likeMatchF f p s
  | _ + 1, _ :: _, [] => false
  | f + 1, a :: p, c :: s => (a.toLower == c.toLower) && likeMatchF f p s

/-- SQL `LIKE` pattern matching, case-insensitive (SQLite default): `%`
matches any run, `_` matches one character, other characters fold case. -/
def likeMatch (p s : List Char) : Bool :=
  likeMatchF (p.length + s.length + 1) p s

/-- Stable insert for `sortStable`: `x` goes before the first element `y`
with `le x y`. -/
def insertStable (le : α → α → Bool) (x : α) : List α → List α
  | [] => [x]
  | y :: ys => if le x y then x :: y :: ys else y :: insertStable le x ys

/-- Stable insertion sort; models a stable JS/SQL sort with boolean
comparator `le` ("may come before"). -/
def sortStable (le : α → α → Bool) : List α → List α
  | [] => []
  | x :: xs => insertStable le x (sortStable le xs)

theorem insertStable_perm (le : α → α → Bool) (x : α) (l : List α) :
    (insertStable le x l).Perm (x :: l) := by
  induction l with
  | nil => simp [insertStable]
  | cons y ys ih =>
    simp only [insertStable]
    by_cases h : le x y = true
    · simp [h]
    · simp only [h, if_false]
      exact (List.Perm.cons y ih).trans (List.Perm.swap x y ys)

theorem sortStable_perm (le : α → α → Bool) (l : List α) :
    (sortStable le l).Perm l := by
  induction l with
  | nil => simp [sortStable]
  | cons x xs ih =>
    exact ((insertStable_perm le x (sortStable le xs)).trans (.cons x ih))

theorem length_sortStable (le : α → α → Bool) (l : List α) :
    (sortStable le l).length = l.length :=
  (sortStable_perm le l).length_eq

theorem mem_sortStable (le : α → α → Bool) (l : List α) (a : α) :
    a ∈ sortStable le l ↔ a ∈ l :=
  (sortStable_perm le l).mem_iff

/-- Sortedness of `insertStable`, relative to a set `P` on which `le` is
total and transitive (the JS comparator need not be transitive on NaN
scores, so the lemma is relativized). -/
theorem insertStable_pairwise (le : α → α → Bool) (P : α → Prop)
    (htrans : ∀ a b c, P a → P b → P c → le a b = true → le b c = true → le a c = true)
    (htotal : ∀ a b, P a → P b → le a b = true ∨ le b a = true)
    (x : α) (hx : P x) :
    ∀ l : List α, (∀ y ∈ l, P y) → l.Pairwise (fun a b => le a b = true) →
      (insertStable le x l).Pairwise (fun a b => le a b = true) := by
  intro l
  induction l with
  | nil => intro _ _; simp [insertStable]
  | cons y ys ih =>
    intro hP hpw
    have hPy : P y := hP y (by simp)
    have hPys : ∀ z ∈ ys, P z := fun z hz => hP z (by simp [hz])
    rw [List.pairwise_cons] at hpw
    simp only [insertStable]
    by_cases h : le x y = true
    · simp only [h, if_true]
      refine List.pairwise_cons.2 ⟨?_, List.pairwise_cons.2 ⟨hpw.1, hpw.2⟩⟩
      intro z hz
      rcases List.mem_cons.1 hz with rfl | hz'
      · exact h
      · exact htrans x y z hx hPy (hPys z hz') h (hpw.1 z hz')
    · simp only [h, if_false]
      refine List.pairwise_cons.2 ⟨?_, ih hPys hpw.2⟩
      intro z hz
      have hz' := (insertStable_perm le x ys).mem_iff.1 hz
      rcases List.mem_cons.1 hz' with heq | hz''
      · subst heq
        rcases htotal z y hx hPy with h' | h'
        · exact absurd h' h
        · exact h'
      · exact hpw.1 z hz''

theorem sortStable_pairwise (le : α → α → Bool) (P : α → Prop)
    (htrans : ∀ a b c, P a → P b → P c → le a b = true → le b c = true → le a c = true)
    (htotal : ∀ a b, P a → P b → le a b = true ∨ le b a = true) :
    ∀ l : List α, (∀ y ∈ l, P y) →
      (sortStable le l).Pairwise (fun a b => le a b = true) := by
  intro l
  induction l with
  | nil => intro _; simp [sortStable]
  | cons x xs ih =>
    intro hP
    have hPx : P x := hP x (by simp)
    have hPxs : ∀ z ∈ xs, P z := fun z hz => hP z (by simp [hz])
    exact insertStable_pairwise le P htrans htotal x hPx (sortStable le xs)
      (fun y hy => hPxs y ((sortStable_perm le xs).mem_iff.1 hy))
      (ih hPxs)

example : likeMatch "%postgresql%".data "Using PostgreSQL for JSONB support".data = true := by decide
example : containsRun (lowerChars "Using PostgreSQL for JSONB support") (lowerChars "PostgreSQL") = true := by decide

/-! ## Entry data model (src/memory/storage-interface.ts) -/

/-- One row of the SQLite table `project_memories`
(sqlite-storage.ts, `initializeDatabase`); equally the field set of
`ProjectMemoryEntry`.  `metadata` is an opaque serialized blob. -/
structure SRow where
  id : String
  projectId : String
  content : String
  type : String
  importance : ℚ
  embedding : Option (List ℚ)
  metadata : Option String
  tags : Option (List String)
  createdAt : ℤ
  updatedAt : ℤ
  accessCount : ℕ
deriving DecidableEq

/-- `StorageConfig` after the constructor merged in the defaults
(`maxMemories: 10000, ttlDays: 90`). -/
structure StorageConfig where
  projectId : String
  maxMemories : ℕ
  ttlDays : ℕ
deriving DecidableEq

/-- `MemorySearchOptions` of storage-interface.ts. -/
structure MemorySearchOptions where
  limit : Option ℕ
  type : Option String
  minImportance : Option ℚ
deriving DecidableEq

/-- The argument of `store`: `Omit<ProjectMemoryEntry, "id" | "createdAt" |
"updatedAt" | "accessCount">`. -/
structure NewEntry where
  projectId : String
  content : String
  type : String
  importance : ℚ
  embedding : Option (List ℚ)
  metadata : Option String
  tags : Option (List String)
deriving DecidableEq

def secondsPerDay : ℤ := 24 * 60 * 60

/-- `if (options.type) ... AND type = ?`. -/
def typeOk (t : Option String) (ty : String) : Bool :=
  match t with
  | some x => ty == x
  | none => true

/-- `if (options.minImportance) ... AND importance >= ?` — the guard is a JS
truthiness test, so a supplied `minImportance` of `0` applies no filter. -/
def minImpOk (m : Option ℚ) (imp : ℚ) : Bool :=
  match m with
  | some q => if q = 0 then true else decide (q ≤ imp)
  | none => true

/-! ## Cosine similarity (sqlite-storage.ts / redis-storage.ts,
`cosineSimilarity` — the two bodies are identical).

The loop runs over the indices of the first vector; reading past the end of
the second vector is JS `undefined`, which poisons the arithmetic to NaN
(`none`).  `sq` abstracts `Math.sqrt`, which has no exact rational
counterpart; each theorem assumes only the facts about real square roots it
uses (such as `sq 0 = 0`). -/

def jsAdd : Option ℚ → Option ℚ → Option ℚ
  | some a, some b => some (qadd a b)
  | _, _ => none

def jsMul : Option ℚ → Option ℚ → Option ℚ
  | some a, some b => some (qmul a b)
  | _, _ => none

/-- JS division; `none` is a non-finite result (NaN for `0/0`, `±∞` for a
nonzero numerator over zero). -/
def jsDiv : Option ℚ → Option ℚ → Option ℚ
  | some a, some b => if b = 0 then none else some (qdiv a b)
  | _, _ => none

/-- `a[i]`: `none` models JS `undefined` for an out-of-bounds read. -/
def jsIdx (l : List ℚ) (i : ℕ) : Option ℚ := l.get? i

/-- One iteration of the `for` loop over index `i`. -/
def cosineStep (a b : List ℚ) (acc : Option ℚ × Option ℚ × Option ℚ) (i : ℕ) :
    Option ℚ × Option ℚ × Option ℚ :=
  (jsAdd acc.1 (jsMul (jsIdx a i) (jsIdx b i)),
   jsAdd acc.2.1 (jsMul (jsIdx a i) (jsIdx a i)),
   jsAdd acc.2.2 (jsMul (jsIdx b i) (jsIdx b i)))

/-- The accumulators `(dotProduct, normA, normB)` after the `for` loop. -/
def cosineSums (a b : List ℚ) : Option ℚ × Option ℚ × Option ℚ :=
  (List.range a.length).foldl (cosineStep a b) (some 0, some 0, some 0)

/-- `dotProduct / (Math.sqrt(normA) * Math.sqrt(normB))` — no guard against a
zero divisor. -/
def cosineSimilarity (sq : ℚ → ℚ) (a b : List ℚ) : Option ℚ :=
  let s := cosineSums a b
  jsDiv s.1 (jsMul (s.2.1.map sq) (s.2.2.map sq))

/-- Comparator derived from `scored.sort((a, b) => b.similarity -
a.similarity)`: `x` may precede `y` iff the callback value is `≤ 0`; a NaN
callback value counts as `0` (ES `SortCompare`), letting either order stand. -/
def simLe {ρ : Type} (x y : ρ × Option ℚ) : Bool :=
  match x.2, y.2 with
  | some a, some b => decide (b ≤ a)
  | _, _ => true

/-! ## SQLite backend (src/memory/sqlite-storage.ts).

State: the table as a `List SRow` in rowid order.  Operations that write
return the new table; read/write pairs mirror the method signatures. -/

/-- Rows of the bound project (`WHERE project_id = ?`). -/
def sqliteProjRows (cfg : StorageConfig) (tbl : List SRow) : List SRow :=
  tbl.filter (fun r => r.projectId == cfg.projectId)

/-- `getCount`: `SELECT COUNT(*) ... WHERE project_id = ?`. -/
def sqliteGetCount (cfg : StorageConfig) (tbl : List SRow) : ℕ :=
  (sqliteProjRows cfg tbl).length

/-- `ORDER BY importance ASC, access_count ASC, created_at ASC` (the
eviction order). -/
def evictLe (a b : SRow) : Bool :=
  decide (a.importance < b.importance) ||
  (decide (a.importance = b.importance) &&
    (decide (a.accessCount < b.accessCount) ||
     (decide (a.accessCount = b.accessCount) && decide (a.createdAt ≤ b.createdAt))))

/-- `ORDER BY importance DESC, access_count DESC, created_at DESC`
(keyword-search order). -/
def searchOrdLe (a b : SRow) : Bool :=
  decide (b.importance < a.importance) ||
  (decide (a.importance = b.importance) &&
    (decide (b.accessCount < a.accessCount) ||
     (decide (a.accessCount = b.accessCount) && decide (b.createdAt ≤ a.createdAt))))

/-- `ORDER BY importance DESC, access_count DESC` (embedding candidate pool
and `getImportant`). -/
def poolLe (a b : SRow) : Bool :=
  decide (b.importance < a.importance) ||
  (decide (a.importance = b.importance) && decide (b.accessCount ≤ a.accessCount))

/-- `ORDER BY importance DESC, created_at DESC` (`getByType`, `getByTags`). -/
def typeOrdLe (a b : SRow) : Bool :=
  decide (b.importance < a.importance) ||
  (decide (a.importance = b.importance) && decide (b.createdAt ≤ a.createdAt))

/-- `ORDER BY created_at DESC` (`getRecent`). -/
def recentLe (a b : SRow) : Bool :=
  decide (b.createdAt ≤ a.createdAt)

/-- Count-eviction half of `enforceMemoryLimits`: when the project's live
count exceeds `maxMemories`, delete the `count - maxMemories + 100`
lowest-(importance, accessCount, createdAt) rows of the project. -/
def sqliteEvict (cfg : StorageConfig) (tbl : List SRow) : List SRow :=
  let count := sqliteGetCount cfg tbl
  if count > cfg.maxMemories then
    let toDelete := count - cfg.maxMemories + 100
    let victims := ((sortStable evictLe (sqliteProjRows cfg tbl)).take toDelete).map SRow.id
    tbl.filter (fun r => !(victims.contains r.id))
  else tbl

/-- Age-expiry half of `enforceMemoryLimits`: guarded by JS truthiness of
`ttlDays`; deletes project rows with `created_at < cutoff AND importance
< 0.8`. -/
def sqliteExpire (cfg : StorageConfig) (now : ℤ) (tbl : List SRow) : List SRow :=
  if cfg.ttlDays = 0 then tbl
  else
    tbl.filter (fun r =>
      !(r.projectId == cfg.projectId &&
        decide (r.createdAt < now - (cfg.ttlDays : ℤ) * secondsPerDay) &&
        decide (r.importance < mkRat 8 10)))

/-- `enforceMemoryLimits`: count eviction, then age expiry. -/
def sqliteEnforceMemoryLimits (cfg : StorageConfig) (now : ℤ) (tbl : List SRow) :
    List SRow :=
  sqliteExpire cfg now (sqliteEvict cfg tbl)

/-- `store`: INSERT the row (importance taken verbatim from the entry,
access_count 0, both timestamps `now`), then enforce limits.  `id` stands for
the generated uuid, `now` for `new Date()`. -/
def sqliteStore (cfg : StorageConfig) (e : NewEntry) (id : String) (now : ℤ)
    (tbl : List SRow) : List SRow × String :=
  let row : SRow :=
    ⟨id, e.projectId, e.content, e.type, e.importance, e.embedding, e.metadata,
      e.tags, now, now, 0⟩
  (sqliteEnforceMemoryLimits cfg now (tbl ++ [row]), id)

/-- `get`: `SELECT * WHERE id = ? AND project_id = ?`, null when absent. -/
def sqliteGet (cfg : StorageConfig) (id : String) (tbl : List SRow) : Option SRow :=
  tbl.find? (fun r => r.id == id && r.projectId == cfg.projectId)

/-- `incrementAccess`: `UPDATE ... SET access_count = access_count + 1,
updated_at = ? WHERE id = ?` — filtered by id only, with no project_id
condition. -/
def sqliteIncrementAccess (id : String) (now : ℤ) (tbl : List SRow) : List SRow :=
  tbl.map (fun r =>
    if r.id == id then
      { r with accessCount := r.accessCount + 1, updatedAt := now }
    else r)

/-- The `updates` argument of `update`. -/
structure UpdateFields where
  content : Option String
  importance : Option ℚ
  metadata : Option String
  tags : Option (List String)
deriving DecidableEq

/-- Apply the supplied fields and refresh `updated_at`. -/
def applyUpdates (u : UpdateFields) (now : ℤ) (r : SRow) : SRow :=
  { r with
    updatedAt := now
    content := u.content.getD r.content
    importance := u.importance.getD r.importance
    metadata := match u.metadata with | some m => some m | none => r.metadata
    tags := match u.tags with | some t => some t | none => r.tags }

/-- `update`: `UPDATE ... WHERE id = ? AND project_id = ?` (a no-op when no
row matches). -/
def sqliteUpdate (cfg : StorageConfig) (id : String) (u : UpdateFields) (now : ℤ)
    (tbl : List SRow) : List SRow :=
  tbl.map (fun r =>
    if r.id == id && r.projectId == cfg.projectId then applyUpdates u now r else r)

/-- `delete`: `DELETE WHERE id = ? AND project_id = ?`. -/
def sqliteDelete (cfg : StorageConfig) (id : String) (tbl : List SRow) : List SRow :=
  tbl.filter (fun r => !(r.id == id && r.projectId == cfg.projectId))

/-- The `WHERE` clause of `searchByKeyword`: project scope, `content LIKE
'%query%'`, optional type and (truthy) minImportance filters. -/
def sqliteKeywordMatches (cfg : StorageConfig) (q : String)
    (opts : MemorySearchOptions) (tbl : List SRow) : List SRow :=
  tbl.filter (fun r =>
    r.projectId == cfg.projectId &&
    likeMatch ('%' :: (q.data ++ ['%'])) r.content.data &&
    typeOk opts.type r.type &&
    minImpOk opts.minImportance r.importance)

/-- `searchByKeyword`: filter, order, `LIMIT ?`, then increment the access
count of every returned row; returns the pre-increment rows and the new
table. -/
def sqliteSearchByKeyword (cfg : StorageConfig) (q : String)
    (opts : MemorySearchOptions) (now : ℤ) (tbl : List SRow) :
    List SRow × List SRow :=
  let limit := jsOrNat opts.limit 10
  let rows := (sortStable searchOrdLe (sqliteKeywordMatches cfg q opts tbl)).take limit
  (rows, rows.foldl (fun t r => sqliteIncrementAccess r.id now t) tbl)

/-- The candidate pool of `searchByEmbedding`: project rows with an
embedding (plus option filters), `ORDER BY importance DESC, access_count
DESC LIMIT 100`. -/
def sqliteCandidates (cfg : StorageConfig) (opts : MemorySearchOptions)
    (tbl : List SRow) : List SRow :=
  ((sortStable poolLe (tbl.filter (fun r =>
      r.projectId == cfg.projectId && r.embedding.isSome &&
      typeOk opts.type r.type && minImpOk opts.minImportance r.importance)))).take 100

/-- Each candidate paired with its (possibly NaN) cosine similarity to the
query. -/
def sqliteScored (cfg : StorageConfig) (sq : ℚ → ℚ) (q : List ℚ)
    (opts : MemorySearchOptions) (tbl : List SRow) : List (SRow × Option ℚ) :=
  (sqliteCandidates cfg opts tbl).map
    (fun r => (r, cosineSimilarity sq q (r.embedding.getD [])))

/-- `searchByEmbedding`: score the pool, sort by similarity descending,
slice `limit`, increment access counts of the returned rows. -/
def sqliteSearchByEmbedding (cfg : StorageConfig) (sq : ℚ → ℚ) (q : List ℚ)
    (opts : MemorySearchOptions) (now : ℤ) (tbl : List SRow) :
    List SRow × List SRow :=
  let limit := jsOrNat opts.limit 10
  let top := (sortStable simLe (sqliteScored cfg sq q opts tbl)).take limit
  (top.map Prod.fst, top.foldl (fun t p => sqliteIncrementAccess p.1.id now t) tbl)

/-- `getByType` (read-only; the table component is returned unchanged). -/
def sqliteGetByType (cfg : StorageConfig) (ty : String) (limit : ℕ)
    (tbl : List SRow) : List SRow × List SRow :=
  (((sortStable typeOrdLe (tbl.filter (fun r =>
      r.projectId == cfg.projectId && r.type == ty)))).take limit, tbl)

/-- `JSON.stringify` of a string array, as stored in the `tags` column. -/
def jsonStringList (ts : List String) : String :=
  "[" ++ String.intercalate "," (ts.map (fun t => "\"" ++ t ++ "\"")) ++ "]"

/-- `getByTags`: OR of `tags LIKE '%"tag"%'` over the serialized blob
(NULL tags match nothing). -/
def sqliteGetByTags (cfg : StorageConfig) (tags : List String) (limit : ℕ)
    (tbl : List SRow) : List SRow × List SRow :=
  (((sortStable typeOrdLe (tbl.filter (fun r =>
      r.projectId == cfg.projectId &&
      tags.any (fun t =>
        match r.tags with
        | some ts => likeMatch ('%' :: ('"' :: (t.data ++ ['"', '%'])))
            (jsonStringList ts).data
        | none => false))))).take limit, tbl)

/-- `getRecent` (read-only). -/
def sqliteGetRecent (cfg : StorageConfig) (limit : ℕ) (tbl : List SRow) :
    List SRow × List SRow :=
  ((sortStable recentLe (sqliteProjRows cfg tbl)).take limit, tbl)

/-- `getImportant` (read-only). -/
def sqliteGetImportant (cfg : StorageConfig) (limit : ℕ) (tbl : List SRow) :
    List SRow × List SRow :=
  ((sortStable poolLe (sqliteProjRows cfg tbl)).take limit, tbl)

/-! ## Redis backend (src/memory/redis-storage.ts).

State: the projection of the Redis keyspace onto the instance's key prefix
`memory:<projectId>`: the entry records and embedding records (each carrying
the absolute expiry time set via `EX`; a record is visible only while `now`
is before it) and the per-project sorted sets.  Sorted-set reads order by
score, ties by member code points (Redis semantics). -/

/-- The JSON record stored at `memory:<proj>:entry:<id>` (`entryToStore`:
the full entry with the `embedding` field deleted). -/
structure REntry where
  id : String
  projectId : String
  content : String
  type : String
  importance : ℚ
  metadata : Option String
  tags : Option (List String)
  createdAt : ℤ
  updatedAt : ℤ
  accessCount : ℕ
deriving DecidableEq

structure RedisState where
  entries : List (String × REntry × ℤ)
  embeddings : List (String × List ℚ × ℤ)
  zAll : List (String × ℤ)
  zRecent : List (String × ℤ)
  zImportance : List (String × ℚ)
  zType : List (String × String × ℤ)
  zTag : List (String × String × ℤ)
deriving DecidableEq

/-- Sorted-set order: score ascending, ties by member code points
ascending. -/
def zleGen {β : Type} [LinearOrder β] (a b : String × β) : Bool :=
  decide (a.2 < b.2) || (decide (a.2 = b.2) && !charListLt b.1.data a.1.data)

/-- `ZRANGE key 0 (n-1)` members (ascending); `take n`. -/
def zrangeAsc {β : Type} [LinearOrder β] (z : List (String × β)) : List String :=
  (sortStable zleGen z).map Prod.fst

/-- `ZREVRANGE key start stop` members; a negative `stop` counts from the
end (`-1` = last element). -/
def zrevr {β : Type} [LinearOrder β] (z : List (String × β)) (start : ℕ)
    (stop : ℤ) : List String :=
  let rev := (zrangeAsc z).reverse
  let stopN : ℤ := if stop < 0 then (rev.length : ℤ) + stop else stop
  (rev.drop start).take (stopN + 1 - (start : ℤ)).toNat

/-- `ZADD` upsert. -/
def zadd {β : Type} (z : List (String × β)) (score : β) (member : String) :
    List (String × β) :=
  z.filter (fun p => !(p.1 == member)) ++ [(member, score)]

/-- `ZREM`. -/
def zrem {β : Type} (z : List (String × β)) (member : String) : List (String × β) :=
  z.filter (fun p => !(p.1 == member))

/-- The members of the `type:<ty>` sorted set. -/
def zOfType (st : RedisState) (ty : String) : List (String × ℤ) :=
  (st.zType.filter (fun p => p.1 == ty)).map (fun p => (p.2.1, p.2.2))

/-- The members of the `tag:<tag>` sorted set. -/
def zOfTag (st : RedisState) (tag : String) : List (String × ℤ) :=
  (st.zTag.filter (fun p => p.1 == tag)).map (fun p => (p.2.1, p.2.2))

/-- `get` on the entry key: visible only while unexpired. -/
def rget (st : RedisState) (now : ℤ) (id : String) : Option REntry :=
  match st.entries.find? (fun p => p.1 == id) with
  | some p => if now < p.2.2 then some p.2.1 else none
  | none => none

/-- `get` on the embedding key. -/
def rgetEmb (st : RedisState) (now : ℤ) (id : String) : Option (List ℚ) :=
  match st.embeddings.find? (fun p => p.1 == id) with
  | some p => if now < p.2.2 then some p.2.1 else none
  | none => none

/-- `addToIndexes` (score = `Date.now()`; importance index scored
`importance * 1000`). -/
def rAddToIndexes (e : REntry) (now : ℤ) (st : RedisState) : RedisState :=
  { st with
    zType := st.zType.filter (fun p => !(p.1 == e.type && p.2.1 == e.id)) ++
      [(e.type, e.id, now)]
    zImportance := zadd st.zImportance (qmul e.importance 1000) e.id
    zRecent := zadd st.zRecent now e.id
    zTag := st.zTag.filter
        (fun p => !((e.tags.getD []).contains p.1 && p.2.1 == e.id)) ++
      (e.tags.getD []).map (fun t => (t, e.id, now))
    zAll := zadd st.zAll now e.id }

/-- `removeFromIndexes`. -/
def rRemoveFromIndexes (e : REntry) (st : RedisState) : RedisState :=
  { st with
    zType := st.zType.filter (fun p => !(p.1 == e.type && p.2.1 == e.id))
    zImportance := zrem st.zImportance e.id
    zRecent := zrem st.zRecent e.id
    zAll := zrem st.zAll e.id
    zTag := st.zTag.filter
      (fun p => !((e.tags.getD []).contains p.1 && p.2.1 == e.id)) }

/-- `incrementAccess`: read the entry (no-op when absent/expired), bump
`accessCount`, refresh `updatedAt`, write back with `KEEPTTL`. -/
def rIncrementAccess (st : RedisState) (now : ℤ) (id : String) : RedisState :=
  match rget st now id with
  | none => st
  | some e =>
    { st with entries := st.entries.map (fun p =>
        if p.1 == id then
          (p.1, { e with accessCount := e.accessCount + 1, updatedAt := now }, p.2.2)
        else p) }

/-- `delete`: read the entry (no-op when absent/expired — note an expired
record's index references are then never cleaned), remove index references,
delete the entry and embedding keys. -/
def rDelete (st : RedisState) (now : ℤ) (id : String) : RedisState :=
  match rget st now id with
  | none => st
  | some e =>
    let st1 := rRemoveFromIndexes e st
    { st1 with
      entries := st1.entries.filter (fun p => !(p.1 == id))
      embeddings := st1.embeddings.filter (fun p => !(p.1 == id)) }

/-- `getCount` = `ZCARD` of the `all` index (counts dangling members too). -/
def rGetCount (st : RedisState) : ℕ := st.zAll.length

/-- `enforceMemoryLimits`: when `ZCARD all` exceeds `maxMemories`, delete
the `count - maxMemories + 100` lowest-importance members (ascending
importance only — ties by member code points, not by access count or age). -/
def rEnforceMemoryLimits (cfg : StorageConfig) (now : ℤ) (st : RedisState) :
    RedisState :=
  let count := rGetCount st
  if count > cfg.maxMemories then
    let toDelete := count - cfg.maxMemories + 100
    ((zrangeAsc st.zImportance).take toDelete).foldl (fun s i => rDelete s now i) st
  else st

/-- `store`: write entry and embedding records with `EX ttlDays·86400`
(unconditionally — importance plays no role in the expiry), index, then
enforce limits. -/
def rStore (cfg : StorageConfig) (e : NewEntry) (id : String) (now : ℤ)
    (st : RedisState) : RedisState × String :=
  let ttl := (cfg.ttlDays : ℤ) * secondsPerDay
  let fe : REntry := ⟨id, e.projectId, e.content, e.type, e.importance,
    e.metadata, e.tags, now, now, 0⟩
  let st1 : RedisState :=
    { st with
      entries := st.entries.filter (fun p => !(p.1 == id)) ++ [(id, fe, now + ttl)]
      embeddings := match e.embedding with
        | some v => st.embeddings.filter (fun p => !(p.1 == id)) ++ [(id, v, now + ttl)]
        | none => st.embeddings }
  (rEnforceMemoryLimits cfg now (rAddToIndexes fe now st1), id)

/-- `if (options.minImportance && entry.importance < options.minImportance)
continue` — truthy guard, so `minImportance = 0` filters nothing. -/
def minImpFails (m : Option ℚ) (imp : ℚ) : Bool :=
  match m with
  | some q => if q = 0 then false else decide (imp < q)
  | none => false

/-- The scan loop of `searchByKeyword`: stops once `limit` matches are
collected; a match is pushed (pre-increment) and its access count bumped. -/
def rKeywordGo (ql : List Char) (minImp : Option ℚ) (now : ℤ) :
    List String → ℕ → RedisState → List REntry × RedisState
  | _, 0, st => ([], st)
  | [], _ + 1, st => ([], st)
  | id :: ids, rem + 1, st =>
    match rget st now id with
    | none => rKeywordGo ql minImp now ids (rem + 1) st
    | some e =>
      if minImpFails minImp e.importance then rKeywordGo ql minImp now ids (rem + 1) st
      else if containsRun (lowerChars e.content) ql then
        let st' := rIncrementAccess st now id
        let res := rKeywordGo ql minImp now ids rem st'
        (e :: res.1, res.2)
      else rKeywordGo ql minImp now ids (rem + 1) st

/-- `searchByKeyword`: scan the 501 most recent members of the `all` index
(or of the type index), case-insensitive substring match, stop at `limit`.
The scan order is recency-descending — importance never enters it. -/
def rSearchByKeyword (cfg : StorageConfig) (q : String)
    (opts : MemorySearchOptions) (now : ℤ) (st : RedisState) :
    List REntry × RedisState :=
  let limit := jsOrNat opts.limit 10
  let ids := match opts.type with
    | some t => zrevr (zOfType st t) 0 500
    | none => zrevr st.zAll 0 500
  rKeywordGo (lowerChars q) opts.minImportance now ids limit st

/-- The scoring pass of `searchByEmbedding`: skip members without a live
embedding record, apply the truthy `minImportance` screen (skipped when the
entry record itself is gone), pair with the cosine similarity. -/
def rScored (sq : ℚ → ℚ) (q : List ℚ) (minImp : Option ℚ) (now : ℤ)
    (st : RedisState) (ids : List String) : List (String × Option ℚ) :=
  ids.filterMap (fun id =>
    match rgetEmb st now id with
    | none => none
    | some emb =>
      let skip := match minImp with
        | some m => if m = 0 then false else
            match rget st now id with
            | some e => decide (e.importance < m)
            | none => false
        | none => false
      if skip then none else some (id, cosineSimilarity sq q emb))

/-- The collection pass: `get` each ranked id, increment its access count,
push the pre-increment entry. -/
def rCollectGo (now : ℤ) : List String → RedisState → List REntry × RedisState
  | [], st => ([], st)
  | id :: ids, st =>
    match rget st now id with
    | none => rCollectGo now ids st
    | some e =>
      let st' := rIncrementAccess st now id
      let res := rCollectGo now ids st'
      (e :: res.1, res.2)

/-- `searchByEmbedding`: candidate pool = `ZREVRANGE … 0 100` (101 most
recent members) of the `all` (or type) index; rank by similarity
descending; collect the top `limit`. -/
def rSearchByEmbedding (cfg : StorageConfig) (sq : ℚ → ℚ) (q : List ℚ)
    (opts : MemorySearchOptions) (now : ℤ) (st : RedisState) :
    List REntry × RedisState :=
  let limit := jsOrNat opts.limit 10
  let ids := match opts.type with
    | some t => zrevr (zOfType st t) 0 100
    | none => zrevr st.zAll 0 100
  let top := (sortStable simLe (rScored sq q opts.minImportance now st ids)).take limit
  rCollectGo now (top.map Prod.fst) st

/-- `getByType` (read-only). -/
def rGetByType (st : RedisState) (ty : String) (limit : ℕ) (now : ℤ) :
    List REntry × RedisState :=
  ((zrevr (zOfType st ty) 0 ((limit : ℤ) - 1)).filterMap (rget st now), st)

/-- `getRecent` (read-only). -/
def rGetRecent (st : RedisState) (limit : ℕ) (now : ℤ) :
    List REntry × RedisState :=
  ((zrevr st.zRecent 0 ((limit : ℤ) - 1)).filterMap (rget st now), st)

/-- `getImportant` (read-only). -/
def rGetImportant (st : RedisState) (limit : ℕ) (now : ℤ) :
    List REntry × RedisState :=
  ((zrevr st.zImportance 0 ((limit : ℤ) - 1)).filterMap (rget st now), st)

/-- First-occurrence de-duplication of ids (JS `Set` insertion order). -/
def dedupStrGo : List String → List String → List String
  | [], _ => []
  | x :: xs, seen =>
    if seen.contains x then dedupStrGo xs seen else x :: dedupStrGo xs (x :: seen)

/-- `getByTags`: union of the per-tag index reads, de-duplicated in
first-seen order, sliced to `limit` (read-only). -/
def rGetByTags (st : RedisState) (tags : List String) (limit : ℕ) (now : ℤ) :
    List REntry × RedisState :=
  (((dedupStrGo (tags.flatMap (fun t => zrevr (zOfTag st t) 0 ((limit : ℤ) - 1))) []).take
      limit).filterMap (rget st now), st)

/-- `update`: read (no-op when absent/expired); on a tags change remove old
index references; merge fields, refresh `updatedAt`, write back `KEEPTTL`;
re-score the importance index when importance changed; on a tags change
re-add all indexes. -/
def rUpdate (st : RedisState) (id : String) (u : UpdateFields) (now : ℤ) :
    RedisState :=
  match rget st now id with
  | none => st
  | some e =>
    let st1 := if u.tags.isSome then rRemoveFromIndexes e st else st
    let e' : REntry :=
      { e with
        updatedAt := now
        content := u.content.getD e.content
        importance := u.importance.getD e.importance
        metadata := match u.metadata with | some m => some m | none => e.metadata
        tags := match u.tags with | some t => some t | none => e.tags }
    let st2 : RedisState :=
      { st1 with entries := st1.entries.map (fun p =>
          if p.1 == id then (p.1, e', p.2.2) else p) }
    let st3 := match u.importance with
      | some v => { st2 with zImportance := zadd st2.zImportance (qmul v 1000) id }
      | none => st2
    if u.tags.isSome then rAddToIndexes e' now st3 else st3

/-! ## ProjectMemory facade (src/memory/project-memory.ts), bound to the
SQLite backend (the facade holds one backend reference; its logic is
backend-agnostic and is modelled over the SQLite state).

The embedding provider is `emb : Option (String → Option (List ℚ))`: `none`
when no provider is bound; `f text = none` models `embedQuery` throwing
(the facade catches the error). -/

/-- The options argument of the facade's `store`. -/
structure StoreOptions where
  importance : Option ℚ
  metadata : Option String
  tags : Option (List String)
deriving DecidableEq

/-- Facade `store`: embedding computed when a provider is bound (a thrown
`embedQuery` is caught, leaving no vector); importance defaults to `0.5`
via `??` (nullish — an explicit `0` is kept); delegates to the backend. -/
def pmStore (cfg : StorageConfig) (emb : Option (String → Option (List ℚ)))
    (content ty : String) (opts : StoreOptions) (id : String) (now : ℤ)
    (tbl : List SRow) : List SRow × String :=
  let embedding : Option (List ℚ) :=
    match emb with
    | some f => f content
    | none => none
  sqliteStore cfg
    ⟨cfg.projectId, content, ty, opts.importance.getD (mkRat 5 10), embedding,
      opts.metadata, opts.tags⟩ id now tbl

/-- Facade `search`: embed the query and search by embedding when a
provider is bound; on a thrown embedding call (or no provider) fall back to
keyword search. -/
def pmSearch (cfg : StorageConfig) (emb : Option (String → Option (List ℚ)))
    (sq : ℚ → ℚ) (q : String) (opts : MemorySearchOptions) (now : ℤ)
    (tbl : List SRow) : List SRow × List SRow :=
  match emb with
  | some f =>
    match f q with
    | some v => sqliteSearchByEmbedding cfg sq v opts now tbl
    | none => sqliteSearchByKeyword cfg q opts now tbl
  | none => sqliteSearchByKeyword cfg q opts now tbl

/-- The de-duplication loop of `getContextForQuery` (`seen` is the JS
`Set`): keeps the first occurrence of each id. -/
def dedupById : List SRow → List String → List SRow
  | [], _ => []
  | r :: rs, seen =>
    if seen.contains r.id then dedupById rs seen
    else r :: dedupById rs (r.id :: seen)

/-- `Project knowledge for "<projectId>":`. -/
def pmHeader (cfg : StorageConfig) : String :=
  "Project knowledge for \"" ++ cfg.projectId ++ "\":"

/-- `- [<type>][<tags>] <content>` (the tag block only when `tags?.length`
is truthy). -/
def pmBullet (r : SRow) : String :=
  let tags := match r.tags with
    | some ts =>
      if ts.length ≠ 0 then " [" ++ String.intercalate ", " ts ++ "]" else ""
    | none => ""
  "- [" ++ r.type ++ "]" ++ tags ++ " " ++ r.content

/-- `getContextForQuery`: 5 relevant entries (semantic search, falling back
to keyword), then 3 important entries, de-duplicated by id (first
occurrence — i.e. the semantic result — wins), rendered as a header plus
bullet lines; the empty string when nothing qualifies. -/
def pmGetContextForQuery (cfg : StorageConfig)
    (emb : Option (String → Option (List ℚ))) (sq : ℚ → ℚ) (q : String)
    (now : ℤ) (tbl : List SRow) : String × List SRow :=
  let rel := pmSearch cfg emb sq q ⟨some 5, none, none⟩ now tbl
  let imp := sqliteGetImportant cfg 3 rel.2
  let allMems := dedupById (rel.1 ++ imp.1) []
  if allMems.isEmpty then ("", imp.2)
  else (String.intercalate "\n" (pmHeader cfg :: allMems.map pmBullet), imp.2)

/-! ## Shared lemmas about the backends -/

theorem sqliteGetCount_append (cfg : StorageConfig) (t1 t2 : List SRow) :
    sqliteGetCount cfg (t1 ++ t2) = sqliteGetCount cfg t1 + sqliteGetCount cfg t2 := by
  simp [sqliteGetCount, sqliteProjRows, List.filter_append]

/-- A freshly inserted row is never deleted by the age-expiry sweep (its
`createdAt` equals `now`, which is never below the cutoff). -/
theorem sqliteExpire_keeps_fresh (cfg : StorageConfig) (now : ℤ) (r : SRow)
    (hcr : r.createdAt = now) :
    (r.projectId == cfg.projectId && decide (r.createdAt < now - (cfg.ttlDays : ℤ) * secondsPerDay) &&
      decide (r.importance < mkRat 8 10)) = false := by
  have h1 : ¬ (r.createdAt < now - (cfg.ttlDays : ℤ) * secondsPerDay) := by
    rw [hcr]
    have : (0 : ℤ) ≤ (cfg.ttlDays : ℤ) * secondsPerDay :=
      mul_nonneg (Int.ofNat_nonneg _) (by norm_num [secondsPerDay])
    omega
  simp [h1]

/-- `store` followed by `get` of the fresh id returns exactly the inserted
row: importance (and every other field) is persisted verbatim. -/
theorem sqliteStore_get_fresh (cfg : StorageConfig) (e : NewEntry) (id : String)
    (now : ℤ) (tbl : List SRow)
    (hfresh : ∀ r ∈ tbl, r.id ≠ id)
    (hcnt : sqliteGetCount cfg tbl < cfg.maxMemories)
    (hproj : e.projectId = cfg.projectId) :
    sqliteGet cfg id (sqliteStore cfg e id now tbl).1 =
      some ⟨id, e.projectId, e.content, e.type, e.importance, e.embedding,
        e.metadata, e.tags, now, now, 0⟩ := by
  set row : SRow := ⟨id, e.projectId, e.content, e.type, e.importance,
    e.embedding, e.metadata, e.tags, now, now, 0⟩ with hrow
  have hc1 : sqliteGetCount cfg (tbl ++ [row]) ≤ sqliteGetCount cfg tbl + 1 := by
    rw [sqliteGetCount_append]
    have : sqliteGetCount cfg [row] ≤ 1 := List.length_filter_le _ _
    omega
  have hevict : sqliteEvict cfg (tbl ++ [row]) = tbl ++ [row] := by
    rw [sqliteEvict]
    have : ¬ (sqliteGetCount cfg (tbl ++ [row]) > cfg.maxMemories) := by omega
    simp [this]
  show sqliteGet cfg id (sqliteEnforceMemoryLimits cfg now (tbl ++ [row])) = some row
  rw [sqliteEnforceMemoryLimits, hevict, sqliteExpire]
  have hrowmem : sqliteGet cfg id (tbl ++ [row]) = some row := by
    rw [sqliteGet, List.find?_append]
    have h1 : List.find? (fun r => r.id == id && r.projectId == cfg.projectId) tbl = none := by
      rw [List.find?_eq_none]
      intro x hx
      simp only [Bool.and_eq_true, beq_iff_eq, not_and]
      intro hid
      exact absurd hid (hfresh x hx)
    rw [h1]
    simp [hrow, hproj]
  by_cases ht : cfg.ttlDays = 0
  · simpa [ht, sqliteGet] using hrowmem
  · set keep : SRow → Bool := fun r =>
      !(r.projectId == cfg.projectId &&
        decide (r.createdAt < now - (cfg.ttlDays : ℤ) * secondsPerDay) &&
        decide (r.importance < mkRat 8 10)) with hkeep
    have hform : (if cfg.ttlDays = 0 then tbl ++ [row]
        else (tbl ++ [row]).filter keep) = (tbl ++ [row]).filter keep := by
      simp [ht]
    rw [hform]
    rw [sqliteGet, List.filter_append, List.find?_append]
    have h1 : List.find? (fun r => r.id == id && r.projectId == cfg.projectId)
        (tbl.filter keep) = none := by
      rw [List.find?_eq_none]
      intro x hx
      have hxm : x ∈ tbl := List.mem_of_mem_filter hx
      simp only [Bool.and_eq_true, beq_iff_eq, not_and]
      intro hid
      exact absurd hid (hfresh x hxm)
    rw [h1]
    have h2 : List.filter keep [row] = [row] := by
      rw [List.filter_eq_self]
      intro a ha
      rw [List.mem_singleton] at ha
      subst ha
      rw [hkeep]
      simp only [Bool.not_eq_true']
      exact sqliteExpire_keeps_fresh cfg now row rfl
    rw [h2]
    simp [hrow, hproj]

/-- Redis `store` followed by `get` of the fresh id: the record is visible
with all fields verbatim exactly until its TTL elapses, whatever its
importance. -/
theorem rStore_get_fresh (cfg : StorageConfig) (e : NewEntry) (id : String)
    (now : ℤ) (st : RedisState)
    (hcnt : rGetCount st < cfg.maxMemories) (now' : ℤ) :
    rget (rStore cfg e id now st).1 now' id =
      (if now' < now + (cfg.ttlDays : ℤ) * secondsPerDay then
        some ⟨id, e.projectId, e.content, e.type, e.importance, e.metadata,
          e.tags, now, now, 0⟩ else none) := by
  set fe : REntry := ⟨id, e.projectId, e.content, e.type, e.importance,
    e.metadata, e.tags, now, now, 0⟩ with hfe
  have hlen : (zadd st.zAll now id).length ≤ st.zAll.length + 1 := by
    rw [zadd]
    have : (st.zAll.filter (fun p => !(p.1 == id))).length ≤ st.zAll.length :=
      List.length_filter_le _ _
    simp only [List.length_append, List.length_cons, List.length_nil]
    omega
  have henf : ∀ s : RedisState, rGetCount s ≤ cfg.maxMemories →
      rEnforceMemoryLimits cfg now s = s := by
    intro s hs
    rw [rEnforceMemoryLimits]
    have : ¬ (rGetCount s > cfg.maxMemories) := by omega
    simp [this]
  rw [rStore]
  simp only
  rw [henf _ (by
    show (rAddToIndexes fe now _).zAll.length ≤ cfg.maxMemories
    simp only [rAddToIndexes]
    rw [show rGetCount st = st.zAll.length from rfl] at hcnt
    omega)]
  rw [rget]
  simp only [rAddToIndexes]
  rw [List.find?_append]
  have h1 : List.find? (fun p => p.1 == id)
      (st.entries.filter (fun p => !(p.1 == id))) = none := by
    rw [List.find?_eq_none]
    intro x hx
    have := List.of_mem_filter hx
    simpa using this
  rw [h1]
  simp [hfe]

/-! ## Claim C1 — importance clamping -/

/-- C1 (amended): no layer of the store path clamps importance.  On both
backends and through the facade, the importance value persisted is exactly
the value supplied (the facade only substitutes the default `0.5` when none
is supplied at all); storing `1.5` stores `1.5` and storing `-0.3` stores
`-0.3`. -/
theorem c1_store_importance_unclamped :
    (∀ (cfg : StorageConfig) (e : NewEntry) (id : String) (now : ℤ) (tbl : List SRow),
      (∀ r ∈ tbl, r.id ≠ id) → sqliteGetCount cfg tbl < cfg.maxMemories →
      e.projectId = cfg.projectId →
      (sqliteGet cfg id (sqliteStore cfg e id now tbl).1).map SRow.importance =
        some e.importance) ∧
    (∀ (cfg : StorageConfig) (e : NewEntry) (id : String) (now : ℤ) (st : RedisState),
      rGetCount st < cfg.maxMemories → 0 < cfg.ttlDays →
      (rget (rStore cfg e id now st).1 now id).map REntry.importance =
        some e.importance) ∧
    (∀ (cfg : StorageConfig) (emb : Option (String → Option (List ℚ)))
      (content ty : String) (opts : StoreOptions) (id : String) (now : ℤ)
      (tbl : List SRow),
      (∀ r ∈ tbl, r.id ≠ id) → sqliteGetCount cfg tbl < cfg.maxMemories →
      (sqliteGet cfg id (pmStore cfg emb content ty opts id now tbl).1).map
        SRow.importance = some (opts.importance.getD (mkRat 5 10))) := by
  refine ⟨?_, ?_, ?_⟩
  · intro cfg e id now tbl hfresh hcnt hproj
    rw [sqliteStore_get_fresh cfg e id now tbl hfresh hcnt hproj]
    rfl
  · intro cfg e id now st hcnt httl
    rw [rStore_get_fresh cfg e id now st hcnt now]
    have hpos : now < now + (cfg.ttlDays : ℤ) * secondsPerDay := by
      have h1 : (1 : ℤ) ≤ (cfg.ttlDays : ℤ) := by exact_mod_cast httl
      have h2 : (0 : ℤ) < secondsPerDay := by norm_num [secondsPerDay]
      nlinarith
    simp [hpos]
  · intro cfg emb content ty opts id now tbl hfresh hcnt
    show (sqliteGet cfg id (sqliteStore cfg _ id now tbl).1).map SRow.importance = _
    rw [sqliteStore_get_fresh cfg _ id now tbl hfresh hcnt rfl]
    rfl

/-- C1 counterexample: through the facade's `store` (backed by the SQLite
`store`), an importance of `1.5` is persisted as `1.5` (not clamped to
`1.0`), and `-0.3` is persisted as `-0.3` (not clamped to `0.0`). -/
theorem c1_counterexample :
    ((pmStore ⟨"p", 10000, 90⟩ none "note" "context" ⟨some (mkRat 3 2), none, none⟩
        "id1" 0 []).1.map SRow.importance = [mkRat 3 2]) ∧
    (mkRat 3 2 : ℚ) = 1.5 ∧ ((mkRat 3 2 : ℚ) ≠ 1) ∧
    ((pmStore ⟨"p", 10000, 90⟩ none "note" "context" ⟨some (mkRat (-3) 10), none, none⟩
        "id1" 0 []).1.map SRow.importance = [mkRat (-3) 10]) ∧
    (mkRat (-3) 10 : ℚ) = -0.3 ∧ ((mkRat (-3) 10 : ℚ) ≠ 0) :=
  ⟨by decide, by norm_num, by decide, by decide,
    by rw [Rat.mkRat_eq_div]; norm_num, by decide⟩

/-- Witness for `c1_store_importance_unclamped` at a concrete input. -/
theorem c1_witness :
    (sqliteGet ⟨"p", 10000, 90⟩ "id1"
      (sqliteStore ⟨"p", 10000, 90⟩ ⟨"p", "note", "context", mkRat 3 2, none, none, none⟩
        "id1" 0 []).1).map SRow.importance = some (mkRat 3 2) :=
  c1_store_importance_unclamped.1 ⟨"p", 10000, 90⟩
    ⟨"p", "note", "context", mkRat 3 2, none, none, none⟩ "id1" 0 []
    (by intro r hr; cases hr) (by decide) rfl

/-! ## Claim C9 — SQLite `incrementAccess` ignores the project scope -/

/-- C9: SQLite `incrementAccess` filters by id only, so it bumps the access
count and refreshes `updatedAt` of a row belonging to a *different* project,
while `get`, `update` and `delete` (which filter by id AND project_id)
treat the same id as not found / a no-op. -/
theorem c9_incrementAccess_cross_project (cfg : StorageConfig) (i : String)
    (u : UpdateFields) (now : ℤ) (tbl : List SRow) (r : SRow)
    (hr : r ∈ tbl) (hid : r.id = i) (hproj : r.projectId ≠ cfg.projectId)
    (huniq : ∀ x ∈ tbl, x.id = i → x = r) :
    ({ r with accessCount := r.accessCount + 1, updatedAt := now } ∈
        sqliteIncrementAccess i now tbl) ∧
    sqliteGet cfg i tbl = none ∧
    sqliteUpdate cfg i u now tbl = tbl ∧
    sqliteDelete cfg i tbl = tbl := by
  refine ⟨?_, ?_, ?_, ?_⟩
  · rw [sqliteIncrementAccess]
    refine List.mem_map.2 ⟨r, hr, ?_⟩
    simp [hid]
  · rw [sqliteGet, List.find?_eq_none]
    intro x hx
    simp only [Bool.and_eq_true, beq_iff_eq, not_and]
    intro hxi
    rw [huniq x hx hxi]
    exact hproj
  · rw [sqliteUpdate]
    have : ∀ x ∈ tbl,
        (if x.id == i && x.projectId == cfg.projectId then applyUpdates u now x else x) = x := by
      intro x hx
      have : (x.id == i && x.projectId == cfg.projectId) = false := by
        by_cases hxi : x.id = i
        · have := huniq x hx hxi
          subst this
          simp [hproj]
        · simp [hxi]
      rw [this]
      rfl
    rw [List.map_congr_left this]
    exact List.map_id tbl
  · rw [sqliteDelete, List.filter_eq_self]
    intro x hx
    have : (x.id == i && x.projectId == cfg.projectId) = false := by
      by_cases hxi : x.id = i
      · have := huniq x hx hxi
        subst this
        simp [hproj]
      · simp [hxi]
    simp [this]

/-- Witness for `c9_incrementAccess_cross_project` at a concrete input. -/
theorem c9_witness :
    ({ id := "x", projectId := "other", content := "c", type := "context",
       importance := 1, embedding := none, metadata := none, tags := none,
       createdAt := 0, updatedAt := 7, accessCount := 1 : SRow} ∈
      sqliteIncrementAccess "x" 7
        [⟨"x", "other", "c", "context", 1, none, none, none, 0, 0, 0⟩]) ∧
    sqliteGet ⟨"p", 10000, 90⟩ "x"
      [⟨"x", "other", "c", "context", 1, none, none, none, 0, 0, 0⟩] = none ∧
    sqliteUpdate ⟨"p", 10000, 90⟩ "x" ⟨none, none, none, none⟩ 7
        [⟨"x", "other", "c", "context", 1, none, none, none, 0, 0, 0⟩] =
      [⟨"x", "other", "c", "context", 1, none, none, none, 0, 0, 0⟩] ∧
    sqliteDelete ⟨"p", 10000, 90⟩ "x"
        [⟨"x", "other", "c", "context", 1, none, none, none, 0, 0, 0⟩] =
      [⟨"x", "other", "c", "context", 1, none, none, none, 0, 0, 0⟩] :=
  c9_incrementAccess_cross_project ⟨"p", 10000, 90⟩ "x" ⟨none, none, none, none⟩ 7
    [⟨"x", "other", "c", "context", 1, none, none, none, 0, 0, 0⟩]
    ⟨"x", "other", "c", "context", 1, none, none, none, 0, 0, 0⟩
    (by simp) rfl (by decide)
    (by intro x hx _; simpa using hx)

/-! ## Claim C7 — not-found is a no-op / null -/

/-- After a Redis `delete` that actually removed the entry, the id resolves
to nothing (at any time); otherwise the delete was already a no-op. -/
theorem rget_after_rDelete (st : RedisState) (now now2 : ℤ) (i : String) :
    rget (rDelete st now i) now2 i = none ∨ rDelete st now i = st := by
  rw [rDelete]
  cases h : rget st now i with
  | none => right; rfl
  | some e =>
    left
    rw [rget]
    have hnone : List.find? (fun p => p.1 == i)
        ((rRemoveFromIndexes e st).entries.filter (fun p => !(p.1 == i))) = none := by
      rw [List.find?_eq_none]
      intro x hx
      have := List.of_mem_filter hx
      simpa using this
    rw [hnone]

/-- C7: `get` on an id that is absent (or belongs to another project)
returns null, `update` and `delete` are no-ops leaving the store unchanged,
and `delete` is idempotent — the second of two calls is a no-op, not an
error — on both backends. -/
theorem c7_not_found_noops (cfg : StorageConfig) (i : String) (u : UpdateFields)
    (now : ℤ) (tbl : List SRow) (st : RedisState)
    (hs : ∀ r ∈ tbl, ¬(r.id = i ∧ r.projectId = cfg.projectId))
    (hr : rget st now i = none) :
    sqliteGet cfg i tbl = none ∧
    sqliteUpdate cfg i u now tbl = tbl ∧
    sqliteDelete cfg i tbl = tbl ∧
    (∀ tbl' : List SRow, sqliteDelete cfg i (sqliteDelete cfg i tbl') =
      sqliteDelete cfg i tbl') ∧
    rUpdate st i u now = st ∧
    rDelete st now i = st ∧
    (∀ (st' : RedisState) (n : ℤ), rDelete (rDelete st' n i) n i = rDelete st' n i) := by
  have hfalse : ∀ r ∈ tbl, (r.id == i && r.projectId == cfg.projectId) = false := by
    intro r hrm
    have := hs r hrm
    by_cases h1 : r.id = i
    · by_cases h2 : r.projectId = cfg.projectId
      · exact absurd ⟨h1, h2⟩ this
      · simp [h2]
    · simp [h1]
  refine ⟨?_, ?_, ?_, ?_, ?_, ?_, ?_⟩
  · rw [sqliteGet, List.find?_eq_none]
    intro x hx
    simp [hfalse x hx]
  · rw [sqliteUpdate]
    have : ∀ x ∈ tbl,
        (if x.id == i && x.projectId == cfg.projectId then applyUpdates u now x else x) = x := by
      intro x hx
      rw [hfalse x hx]
      rfl
    rw [List.map_congr_left this]
    exact List.map_id tbl
  · rw [sqliteDelete, List.filter_eq_self]
    intro x hx
    simp [hfalse x hx]
  · intro tbl'
    rw [sqliteDelete, sqliteDelete, List.filter_eq_self]
    intro x hx
    exact (List.mem_filter.1 hx).2
  · rw [rUpdate, hr]
  · rw [rDelete, hr]
  · intro st' n
    rcases rget_after_rDelete st' n n i with h | h
    · rw [rDelete, h]
    · rw [h]
      exact h

/-- Witness for `c7_not_found_noops` at a concrete input. -/
theorem c7_witness :
    sqliteGet ⟨"p", 10000, 90⟩ "ghost" [] = none ∧
    sqliteUpdate ⟨"p", 10000, 90⟩ "ghost" ⟨none, none, none, none⟩ 3 [] = [] ∧
    sqliteDelete ⟨"p", 10000, 90⟩ "ghost" [] = [] ∧
    (∀ tbl' : List SRow, sqliteDelete ⟨"p", 10000, 90⟩ "ghost"
      (sqliteDelete ⟨"p", 10000, 90⟩ "ghost" tbl') =
      sqliteDelete ⟨"p", 10000, 90⟩ "ghost" tbl') ∧
    rUpdate ⟨[], [], [], [], [], [], []⟩ "ghost" ⟨none, none, none, none⟩ 3 =
      ⟨[], [], [], [], [], [], []⟩ ∧
    rDelete ⟨[], [], [], [], [], [], []⟩ 3 "ghost" = ⟨[], [], [], [], [], [], []⟩ ∧
    (∀ (st' : RedisState) (n : ℤ), rDelete (rDelete st' n "ghost") n "ghost" =
      rDelete st' n "ghost") :=
  c7_not_found_noops ⟨"p", 10000, 90⟩ "ghost" ⟨none, none, none, none⟩ 3 []
    ⟨[], [], [], [], [], [], []⟩ (by intro r hrm; cases hrm) (by decide)


/-! ## Claim C10 — cosine similarity has no zero-divisor guard -/

theorem jsMul_none_right (x : Option ℚ) : jsMul x none = none := by
  cases x <;> rfl

theorem jsDiv_none_right (x : Option ℚ) : jsDiv x none = none := by
  cases x <;> rfl

theorem jsDiv_some_zero (x : Option ℚ) : jsDiv x (some 0) = none := by
  cases x with
  | none => rfl
  | some d => simp [jsDiv]

/-- Along a zero second vector, the `normB` accumulator stays `some 0` (or
becomes NaN on an out-of-bounds read). -/
theorem cosineSums_normB_zero (a b : List ℚ) (hb : ∀ x ∈ b, x = 0) :
    ∀ (m : ℕ) (init : Option ℚ × Option ℚ × Option ℚ),
      (init.2.2 = some 0 ∨ init.2.2 = none) →
      ((List.range m).foldl (cosineStep a b) init).2.2 = some 0 ∨
      ((List.range m).foldl (cosineStep a b) init).2.2 = none := by
  intro m
  induction m with
  | zero => intro init h; exact h
  | succ k ih =>
    intro init h
    rw [List.range_succ, List.foldl_append]
    have hacc := ih init h
    set acc := (List.range k).foldl (cosineStep a b) init with hacc_def
    simp only [List.foldl_cons, List.foldl_nil]
    rcases hacc with hz | hn
    · cases hk : jsIdx b k with
      | none =>
        right
        show (jsAdd acc.2.2 (jsMul (jsIdx b k) (jsIdx b k))) = none
        rw [hk, jsMul_none_right]
        cases acc.2.2 <;> rfl
      | some x =>
        have hx : x = 0 := hb x (List.get?_mem hk)
        subst hx
        left
        show (jsAdd acc.2.2 (jsMul (jsIdx b k) (jsIdx b k))) = some 0
        rw [hk, hz]
        show jsAdd (some 0) (jsMul (some 0) (some 0)) = some 0
        simp [jsMul, jsAdd, qmul_eq, qadd_eq]
    · right
      show (jsAdd acc.2.2 (jsMul (jsIdx b k) (jsIdx b k))) = none
      rw [hn]
      rfl

/-- The cosine-similarity divisor is zero for a zero (or empty) stored
vector, and the unguarded division returns a non-finite value. -/
theorem cosineSimilarity_zero_vec (sq : ℚ → ℚ) (h0 : sq 0 = 0) (a b : List ℚ)
    (hb : ∀ x ∈ b, x = 0) : cosineSimilarity sq a b = none := by
  have h := cosineSums_normB_zero a b hb a.length (some 0, some 0, some 0) (Or.inl rfl)
  rw [show (List.range a.length).foldl (cosineStep a b) (some 0, some 0, some 0) =
    cosineSums a b from rfl] at h
  rw [cosineSimilarity]
  rcases h with h | h
  · rw [h]
    cases h1 : (cosineSums a b).2.1 with
    | none =>
      simp only [Option.map_none']
      show jsDiv (cosineSums a b).1 (jsMul none _) = none
      rw [show jsMul none (Option.map sq (some 0)) = none from rfl]
      exact jsDiv_none_right _
    | some x =>
      simp only [Option.map_some', h0]
      show jsDiv (cosineSums a b).1 (jsMul (some (sq x)) (some 0)) = none
      have : jsMul (some (sq x)) (some 0) = some 0 := by
        show some (qmul (sq x) 0) = some 0
        rw [qmul_eq, mul_zero]
      rw [this]
      exact jsDiv_some_zero _
  · rw [h]
    simp only [Option.map_none']
    rw [jsMul_none_right]
    exact jsDiv_none_right _

/-- C10: the cosine similarity shared by both backends divides by
`√normA · √normB` with no guard: for a stored all-zero (or empty) embedding
the divisor is zero and the returned score is non-finite (`none`, i.e. JS
NaN), and `searchByEmbedding` scores its candidates with exactly this
unguarded value. -/
theorem c10_cosine_unguarded (sq : ℚ → ℚ) (h0 : sq 0 = 0) :
    (∀ (a : List ℚ) (n : ℕ), cosineSimilarity sq a (List.replicate n 0) = none) ∧
    (∀ (cfg : StorageConfig) (q : List ℚ) (opts : MemorySearchOptions)
        (tbl : List SRow) (r : SRow), r ∈ sqliteCandidates cfg opts tbl →
        (r, cosineSimilarity sq q (r.embedding.getD [])) ∈
          sqliteScored cfg sq q opts tbl) ∧
    sqliteScored ⟨"p", 10000, 90⟩ sq [1, 0] ⟨none, none, none⟩
        [⟨"z", "p", "zero", "context", 1, some [0, 0], none, none, 0, 0, 0⟩] =
      [(⟨"z", "p", "zero", "context", 1, some [0, 0], none, none, 0, 0, 0⟩,
        cosineSimilarity sq [1, 0] [0, 0])] ∧
    cosineSimilarity sq [1, 0] [0, 0] = none := by
  refine ⟨?_, ?_, rfl, ?_⟩
  · intro a n
    exact cosineSimilarity_zero_vec sq h0 a _ (fun x hx => List.eq_of_mem_replicate hx)
  · intro cfg q opts tbl r hr
    exact List.mem_map.2 ⟨r, hr, rfl⟩
  · exact cosineSimilarity_zero_vec sq h0 [1, 0] [0, 0] (by intro x hx; simpa using hx)

/-- Witness for `c10_cosine_unguarded` (instantiating the abstract square
root with the identity, which satisfies `sq 0 = 0`). -/
theorem c10_witness :
    cosineSimilarity (fun x => x) [1, 0] [0, 0] = none :=
  (c10_cosine_unguarded (fun x => x) rfl).2.2.2

/-! ## Claim C3 — age-based expiry vs importance -/

/-- C3 counterexample: on the Redis backend a stored entry with importance
`0.9` (≥ 0.8) is *not* exempt from age-based expiry: its record carries the
unconditional `EX ttlDays·86400`, so one second past the TTL it is gone. -/
theorem c3_counterexample :
    (rget (rStore ⟨"p", 10000, 90⟩ ⟨"p", "keep", "decision", mkRat 9 10, none, none, none⟩
        "a" 0 ⟨[], [], [], [], [], [], []⟩).1 (90 * (24 * 60 * 60) + 1) "a" = none) ∧
    (mkRat 8 10 : ℚ) ≤ mkRat 9 10 ∧
    ((90 : ℤ) * (24 * 60 * 60) + 1 - 0 > 90 * (24 * 60 * 60)) := by
  refine ⟨by decide, by decide, by decide⟩

/-- C3 (amended): only the SQLite backend implements the importance
exemption: its sweep deletes exactly the project rows older than `ttlDays`
with importance < 0.8, so a row with importance ≥ 0.8 survives regardless
of age.  On the Redis backend every record expires `ttlDays` after its
store, whatever its importance. -/
theorem c3_expiry_behavior :
    (∀ (cfg : StorageConfig) (now : ℤ) (tbl : List SRow) (r : SRow), 0 < cfg.ttlDays →
      (r ∈ sqliteExpire cfg now tbl ↔ r ∈ tbl ∧
        ¬(r.projectId = cfg.projectId ∧
          r.createdAt < now - (cfg.ttlDays : ℤ) * secondsPerDay ∧
          r.importance < mkRat 8 10))) ∧
    (∀ (cfg : StorageConfig) (now : ℤ) (tbl : List SRow) (r : SRow), 0 < cfg.ttlDays →
      r ∈ tbl → mkRat 8 10 ≤ r.importance → r ∈ sqliteExpire cfg now tbl) ∧
    (∀ (cfg : StorageConfig) (e : NewEntry) (id : String) (now : ℤ)
      (st : RedisState) (now' : ℤ), rGetCount st < cfg.maxMemories →
      mkRat 8 10 ≤ e.importance →
      now + (cfg.ttlDays : ℤ) * secondsPerDay ≤ now' →
      rget (rStore cfg e id now st).1 now' id = none) := by
  have key : ∀ (cfg : StorageConfig) (now : ℤ) (tbl : List SRow) (r : SRow),
      0 < cfg.ttlDays →
      (r ∈ sqliteExpire cfg now tbl ↔ r ∈ tbl ∧
        ¬(r.projectId = cfg.projectId ∧
          r.createdAt < now - (cfg.ttlDays : ℤ) * secondsPerDay ∧
          r.importance < mkRat 8 10)) := by
    intro cfg now tbl r ht
    rw [sqliteExpire]
    have h0 : ¬ (cfg.ttlDays = 0) := by omega
    simp only [h0, if_false, List.mem_filter, Bool.not_eq_true',
      Bool.and_eq_true, beq_iff_eq, decide_eq_true_eq]
    constructor
    · rintro ⟨hm, hf⟩
      refine ⟨hm, ?_⟩
      rintro ⟨h1, h2, h3⟩
      rw [h1] at hf
      simp [h2, h3] at hf
    · rintro ⟨hm, hn⟩
      refine ⟨hm, ?_⟩
      by_cases h1 : r.projectId = cfg.projectId
      · by_cases h2 : r.createdAt < now - (cfg.ttlDays : ℤ) * secondsPerDay
        · by_cases h3 : r.importance < mkRat 8 10
          · exact absurd ⟨h1, h2, h3⟩ hn
          · simp [h3]
        · simp [h2]
      · simp [h1]
  refine ⟨key, ?_, ?_⟩
  · intro cfg now tbl r ht hr himp
    refine (key cfg now tbl r ht).2 ⟨hr, ?_⟩
    rintro ⟨-, -, hlt⟩
    exact absurd hlt (not_lt.2 himp)
  · intro cfg e id now st now' hcnt _ hage
    rw [rStore_get_fresh cfg e id now st hcnt now']
    have : ¬ (now' < now + (cfg.ttlDays : ℤ) * secondsPerDay) := by omega
    simp [this]

/-- Witness for `c3_expiry_behavior` at concrete inputs: a SQLite row with
importance 0.9 survives an arbitrarily old sweep, and a Redis entry with
importance 0.9 is gone after its TTL. -/
theorem c3_witness :
    (⟨"a", "p", "keep", "decision", mkRat 9 10, none, none, none, -100000000, 0, 0⟩ ∈
      sqliteExpire ⟨"p", 10000, 90⟩ 0
        [⟨"a", "p", "keep", "decision", mkRat 9 10, none, none, none, -100000000, 0, 0⟩]) ∧
    rget (rStore ⟨"p", 10000, 90⟩ ⟨"p", "keep", "decision", mkRat 9 10, none, none, none⟩
        "a" 0 ⟨[], [], [], [], [], [], []⟩).1 7776001 "a" = none :=
  ⟨c3_expiry_behavior.2.1 ⟨"p", 10000, 90⟩ 0 _
      ⟨"a", "p", "keep", "decision", mkRat 9 10, none, none, none, -100000000, 0, 0⟩
      (by decide) (by simp) (by decide),
    c3_expiry_behavior.2.2 ⟨"p", 10000, 90⟩
      ⟨"p", "keep", "decision", mkRat 9 10, none, none, none⟩ "a" 0
      ⟨[], [], [], [], [], [], []⟩ 7776001 (by decide) (by decide) (by decide)⟩
/-- Count eviction: whenever the project's live count exceeds `maxMemories`,
the sweep deletes the lowest `count - maxMemories + 100` rows in eviction
order, leaving `maxMemories - 100` rows (truncated at zero): the survivors
are exactly the rows beyond the first `count - maxMemories + 100` of the
eviction-sorted project rows. -/
theorem sqliteEvict_count (cfg : StorageConfig) (tbl : List SRow)
    (hnd : (tbl.map SRow.id).Nodup)
    (hc : sqliteGetCount cfg tbl > cfg.maxMemories) :
    (sqliteProjRows cfg (sqliteEvict cfg tbl)).Perm
      ((sortStable evictLe (sqliteProjRows cfg tbl)).drop
        (sqliteGetCount cfg tbl - cfg.maxMemories + 100)) ∧
    sqliteGetCount cfg (sqliteEvict cfg tbl) = cfg.maxMemories - 100 := by
  set P := sqliteProjRows cfg tbl with hP
  set S := sortStable evictLe P with hS
  set d := sqliteGetCount cfg tbl - cfg.maxMemories + 100 with hd
  set V := (S.take d).map SRow.id with hV
  set keep : SRow → Bool := fun r => !(V.contains r.id) with hkeep
  have hev : sqliteEvict cfg tbl = tbl.filter keep := by
    rw [sqliteEvict]
    simp only [hc, if_true]
  -- ids of S are nodup
  have hPsub : (P.map SRow.id).Sublist (tbl.map SRow.id) :=
    List.Sublist.map SRow.id (List.filter_sublist tbl)
  have hPnd : (P.map SRow.id).Nodup := hnd.sublist hPsub
  have hSperm : S.Perm P := sortStable_perm evictLe P
  have hSnd : (S.map SRow.id).Nodup := ((hSperm.map SRow.id).nodup_iff).2 hPnd
  -- the filter on S keeps exactly the dropped part
  have htd : S = S.take d ++ S.drop d := (List.take_append_drop d S).symm
  have hfilS : S.filter keep = S.drop d := by
    conv_lhs => rw [htd]
    rw [List.filter_append]
    have h1 : (S.take d).filter keep = [] := by
      rw [List.filter_eq_nil_iff]
      intro a ha
      have : a.id ∈ V := List.mem_map_of_mem SRow.id ha
      simp [hkeep, this]
    have h2 : (S.drop d).filter keep = S.drop d := by
      rw [List.filter_eq_self]
      intro a ha
      have hmem : a.id ∈ (S.drop d).map SRow.id := List.mem_map_of_mem SRow.id ha
      have hdisj : a.id ∉ V := by
        have : ((S.take d).map SRow.id ++ (S.drop d).map SRow.id).Nodup := by
          rw [← List.map_append, ← htd]
          exact hSnd
        have hdd := (List.nodup_append.1 this).2.2
        intro hin
        exact hdd hin hmem
      simp [hkeep, hdisj]
    rw [h1, h2, List.nil_append]
  have hproj : sqliteProjRows cfg (tbl.filter keep) = P.filter keep := by
    rw [hP, sqliteProjRows, sqliteProjRows, List.filter_filter, List.filter_filter]
    exact List.filter_congr (fun a _ => Bool.and_comm _ _)
  have hperm : (sqliteProjRows cfg (sqliteEvict cfg tbl)).Perm (S.drop d) := by
    rw [hev, hproj, ← hfilS]
    exact (hSperm.symm.filter keep)
  refine ⟨hperm, ?_⟩
  have hlen : (S.drop d).length = S.length - d := List.length_drop d S
  have hSlen : S.length = P.length := length_sortStable evictLe P
  have hcount : sqliteGetCount cfg (sqliteEvict cfg tbl) = (S.drop d).length := by
    rw [sqliteGetCount, hperm.length_eq]
  rw [hcount, hlen, hSlen]
  rw [show P.length = sqliteGetCount cfg tbl from rfl]
  omega

/-! ## Claim C2 — count eviction -/

def c2cfg : StorageConfig := ⟨"p", 10, 90⟩

def c2entry (k : ℕ) : NewEntry := ⟨"p", "note", "context", (k : ℚ), none, none, none⟩

/-- 15 sequential stores with strictly increasing importance `1..15`,
`maxMemories = 10`, on the SQLite backend. -/
def c2sqliteFinal : List SRow :=
  (List.range 15).foldl
    (fun tbl k => (sqliteStore c2cfg (c2entry (k + 1)) (Nat.repr (k + 1)) ((k : ℤ) + 1) tbl).1) []

/-- The same 15 stores on the Redis backend. -/
def c2redisFinal : RedisState :=
  (List.range 15).foldl
    (fun st k => (rStore c2cfg (c2entry (k + 1)) (Nat.repr (k + 1)) ((k : ℤ) + 1) st).1)
    ⟨[], [], [], [], [], [], []⟩

/-- C2 counterexample: with `maxMemories = 10`, after storing 15 entries of
strictly increasing importance the live count on both backends is 4, not
10 — the 11th store's batch (`count - maxMemories + 100 = 101`) wipes every
then-live entry of the project. -/
theorem c2_counterexample :
    sqliteGetCount c2cfg c2sqliteFinal = 4 ∧
    rGetCount c2redisFinal = 4 ∧ (4 : ℕ) ≠ 10 := by
  refine ⟨by decide, by decide, by decide⟩

/-- C2 (amended): after a store that pushes the project's live count over
`maxMemories`, both backends delete the `count - maxMemories + 100` entries
lowest in the eviction order (for SQLite: importance, then accessCount,
then createdAt, all ascending), leaving `maxMemories - 100` entries
(truncated at zero) — which can be every entry of the project.  With
`maxMemories = 10`, storing 15 entries of strictly increasing importance
leaves exactly the 4 entries stored after the wipe (the 12th–15th),
retrievable via `getCount`/`getImportant`. -/
theorem c2_eviction_batch :
    (∀ (cfg : StorageConfig) (tbl : List SRow), (tbl.map SRow.id).Nodup →
      sqliteGetCount cfg tbl > cfg.maxMemories →
      (sqliteProjRows cfg (sqliteEvict cfg tbl)).Perm
        ((sortStable evictLe (sqliteProjRows cfg tbl)).drop
          (sqliteGetCount cfg tbl - cfg.maxMemories + 100)) ∧
      sqliteGetCount cfg (sqliteEvict cfg tbl) = cfg.maxMemories - 100) ∧
    sqliteGetCount c2cfg c2sqliteFinal = 4 ∧
    (sqliteGetImportant c2cfg 10 c2sqliteFinal).1.map SRow.id = ["15", "14", "13", "12"] ∧
    (sqliteGetImportant c2cfg 10 c2sqliteFinal).1.map SRow.importance = [15, 14, 13, 12] ∧
    rGetCount c2redisFinal = 4 ∧
    (rGetImportant c2redisFinal 10 16).1.map REntry.id = ["15", "14", "13", "12"] := by
  refine ⟨sqliteEvict_count, by decide, by decide, by decide, by decide, by decide⟩

/-- Witness for `c2_eviction_batch` at a concrete over-limit table
(`maxMemories = 1`, two live rows: the eviction batch wipes both). -/
theorem c2_witness :
    sqliteGetCount ⟨"p", 1, 90⟩ (sqliteEvict ⟨"p", 1, 90⟩
      [⟨"a", "p", "x", "context", 1, none, none, none, 0, 0, 0⟩,
       ⟨"b", "p", "y", "context", 2, none, none, none, 1, 1, 0⟩]) = 0 :=
  (c2_eviction_batch.1 ⟨"p", 1, 90⟩
    [⟨"a", "p", "x", "context", 1, none, none, none, 0, 0, 0⟩,
     ⟨"b", "p", "y", "context", 2, none, none, none, 1, 1, 0⟩]
    (by decide) (by decide)).2
theorem searchOrdLe_iff (a b : SRow) : searchOrdLe a b = true ↔
    b.importance < a.importance ∨ (a.importance = b.importance ∧
      (b.accessCount < a.accessCount ∨ (a.accessCount = b.accessCount ∧
        b.createdAt ≤ a.createdAt))) := by
  simp [searchOrdLe, Bool.or_eq_true, Bool.and_eq_true, decide_eq_true_eq]

theorem searchOrdLe_trans (a b c : SRow) (h1 : searchOrdLe a b = true)
    (h2 : searchOrdLe b c = true) : searchOrdLe a c = true := by
  rw [searchOrdLe_iff] at h1 h2 ⊢
  rcases h1 with h1 | ⟨he1, h1⟩
  · rcases h2 with h2 | ⟨he2, h2⟩
    · exact Or.inl (lt_trans h2 h1)
    · exact Or.inl (he2 ▸ h1)
  · rcases h2 with h2 | ⟨he2, h2⟩
    · exact Or.inl (he1 ▸ h2)
    · refine Or.inr ⟨he1.trans he2, ?_⟩
      rcases h1 with h1 | ⟨ha1, h1⟩ <;> rcases h2 with h2 | ⟨ha2, h2⟩
      · exact Or.inl (Nat.lt_trans h2 h1)
      · exact Or.inl (ha2 ▸ h1)
      · exact Or.inl (ha1 ▸ h2)
      · exact Or.inr ⟨ha1.trans ha2, le_trans h2 h1⟩

theorem searchOrdLe_total (a b : SRow) :
    searchOrdLe a b = true ∨ searchOrdLe b a = true := by
  rw [searchOrdLe_iff, searchOrdLe_iff]
  rcases lt_trichotomy a.importance b.importance with h | h | h
  · exact Or.inr (Or.inl h)
  · rcases Nat.lt_trichotomy a.accessCount b.accessCount with h' | h' | h'
    · exact Or.inr (Or.inr ⟨h.symm, Or.inl h'⟩)
    · rcases le_total b.createdAt a.createdAt with h'' | h''
      · exact Or.inl (Or.inr ⟨h, Or.inr ⟨h', h''⟩⟩)
      · exact Or.inr (Or.inr ⟨h.symm, Or.inr ⟨h'.symm, h''⟩⟩)
    · exact Or.inl (Or.inr ⟨h, Or.inl h'⟩)
  · exact Or.inl (Or.inl h)

theorem rKeywordGo_sound (ql : List Char) (minImp : Option ℚ) (now : ℤ) :
    ∀ (ids : List String) (rem : ℕ) (st : RedisState),
      (rKeywordGo ql minImp now ids rem st).1.length ≤ rem ∧
      (∀ e ∈ (rKeywordGo ql minImp now ids rem st).1,
        containsRun (lowerChars e.content) ql = true) := by
  intro ids
  induction ids with
  | nil =>
    intro rem st
    cases rem with
    | zero => exact ⟨Nat.le_refl 0, by intro e he; cases he⟩
    | succ k => exact ⟨by simp [rKeywordGo], by intro e he; simp [rKeywordGo] at he⟩
  | cons id ids ih =>
    intro rem st
    cases rem with
    | zero => exact ⟨Nat.le_refl 0, by intro e he; cases he⟩
    | succ k =>
      rw [rKeywordGo]
      cases hg : rget st now id with
      | none => exact ih (k + 1) st
      | some e =>
        by_cases hm : minImpFails minImp e.importance = true
        · simp only [hm, if_true]
          exact ih (k + 1) st
        · simp only [hm, if_false]
          by_cases hc : containsRun (lowerChars e.content) ql = true
          · simp only [hc, if_true]
            refine ⟨?_, ?_⟩
            · have := (ih k (rIncrementAccess st now id)).1
              simpa using Nat.succ_le_succ this
            · intro x hx
              rcases List.mem_cons.1 hx with rfl | hx'
              · exact hc
              · exact (ih k (rIncrementAccess st now id)).2 x hx'
          · simp only [hc, if_false]
            exact ih (k + 1) st

/-! ## Claim C4 — keyword search -/

def c4cfg : StorageConfig := ⟨"p", 10000, 90⟩

def c4tbl : List SRow :=
  [⟨"a", "p", "Using PostgreSQL for JSONB support", "decision", mkRat 9 10, none, none, none, 1, 1, 0⟩,
   ⟨"b", "p", "postgresql migration pending", "todo", mkRat 1 10, none, none, none, 2, 2, 0⟩]

/-- Two Redis stores: id "a" (older, importance 0.9), id "b" (newer,
importance 0.1), both matching "postgresql" case-insensitively. -/
def c4redis : RedisState :=
  (rStore c4cfg ⟨"p", "postgresql migration pending", "todo", mkRat 1 10, none, none, none⟩ "b" 2
    (rStore c4cfg ⟨"p", "Using PostgreSQL for JSONB support", "decision", mkRat 9 10, none, none, none⟩
      "a" 1 ⟨[], [], [], [], [], [], []⟩).1).1

/-- C4 counterexample: on the Redis backend `searchByKeyword` returns its
matches in recency-descending scan order, not importance-descending: the
newer importance-0.1 entry comes before the older importance-0.9 entry. -/
theorem c4_counterexample :
    (rSearchByKeyword c4cfg "PostgreSQL" ⟨none, none, none⟩ 3 c4redis).1.map
      REntry.id = ["b", "a"] ∧
    (rSearchByKeyword c4cfg "PostgreSQL" ⟨none, none, none⟩ 3 c4redis).1.map
      REntry.importance = [mkRat 1 10, mkRat 9 10] ∧
    (mkRat 1 10 : ℚ) < mkRat 9 10 := by
  refine ⟨by decide, by decide, by decide⟩

/-- C4 (amended): on the SQLite backend `searchByKeyword` returns project
rows whose content matches the query as a case-insensitive `LIKE` infix
pattern, ordered by importance desc / access count desc / createdAt desc,
capped at `limit`, and complete whenever at most `limit` rows match.  On
the Redis backend every returned entry matches case-insensitively and the
cap holds, but results arrive in recency-descending scan order over at most
the 501 most recent ids — importance does not order them. -/
theorem c4_keyword_search :
    (∀ (cfg : StorageConfig) (q : String) (opts : MemorySearchOptions) (now : ℤ)
       (tbl : List SRow),
      (∀ r ∈ (sqliteSearchByKeyword cfg q opts now tbl).1,
        r ∈ tbl ∧ r.projectId = cfg.projectId ∧
        likeMatch ('%' :: (q.data ++ ['%'])) r.content.data = true ∧
        typeOk opts.type r.type = true ∧
        minImpOk opts.minImportance r.importance = true) ∧
      (sqliteSearchByKeyword cfg q opts now tbl).1.length ≤ jsOrNat opts.limit 10 ∧
      (sqliteSearchByKeyword cfg q opts now tbl).1.Pairwise
        (fun a b => searchOrdLe a b = true) ∧
      ((sqliteKeywordMatches cfg q opts tbl).length ≤ jsOrNat opts.limit 10 →
        ∀ r ∈ sqliteKeywordMatches cfg q opts tbl,
          r ∈ (sqliteSearchByKeyword cfg q opts now tbl).1)) ∧
    (∀ (cfg : StorageConfig) (q : String) (opts : MemorySearchOptions) (now : ℤ)
       (st : RedisState),
      (∀ e ∈ (rSearchByKeyword cfg q opts now st).1,
        containsRun (lowerChars e.content) (lowerChars q) = true) ∧
      (rSearchByKeyword cfg q opts now st).1.length ≤ jsOrNat opts.limit 10) ∧
    (sqliteSearchByKeyword c4cfg "postgresql" ⟨none, none, none⟩ 5 c4tbl).1.map
      SRow.id = ["a", "b"] ∧
    (rSearchByKeyword c4cfg "PostgreSQL" ⟨none, none, none⟩ 3 c4redis).1.map
      REntry.id = ["b", "a"] := by
  refine ⟨?_, ?_, by decide, by decide⟩
  · intro cfg q opts now tbl
    refine ⟨?_, ?_, ?_, ?_⟩
    · intro r hr
      have h1 : r ∈ sortStable searchOrdLe (sqliteKeywordMatches cfg q opts tbl) :=
        List.mem_of_mem_take hr
      have h2 : r ∈ sqliteKeywordMatches cfg q opts tbl :=
        (mem_sortStable _ _ r).1 h1
      rw [sqliteKeywordMatches, List.mem_filter] at h2
      have h3 := h2.2
      simp only [Bool.and_eq_true, beq_iff_eq] at h3
      exact ⟨h2.1, h3.1.1.1, h3.1.1.2, h3.1.2, h3.2⟩
    · exact List.length_take_le _ _
    · refine List.Pairwise.sublist (List.take_sublist _ _) ?_
      exact sortStable_pairwise searchOrdLe (fun _ => True)
        (fun a b c _ _ _ => searchOrdLe_trans a b c)
        (fun a b _ _ => searchOrdLe_total a b)
        _ (fun _ _ => trivial)
    · intro hlen r hr
      show r ∈ (sortStable searchOrdLe (sqliteKeywordMatches cfg q opts tbl)).take _
      rw [List.take_of_length_le]
      · exact (mem_sortStable _ _ r).2 hr
      · rw [length_sortStable]
        exact hlen
  · intro cfg q opts now st
    have h := rKeywordGo_sound (lowerChars q) opts.minImportance now
    constructor
    · intro e he
      exact (h _ _ st).2 e he
    · exact (h _ _ st).1

/-- Witness for `c4_keyword_search` at a concrete input (the SQLite
concrete search of the statement, extracted through the universal part). -/
theorem c4_witness :
    (∀ r ∈ (sqliteSearchByKeyword c4cfg "postgresql" ⟨none, none, none⟩ 5 c4tbl).1,
      r ∈ c4tbl ∧ r.projectId = c4cfg.projectId ∧
      likeMatch ('%' :: (("postgresql".data) ++ ['%'])) r.content.data = true ∧
      typeOk none r.type = true ∧ minImpOk none r.importance = true) ∧
    (sqliteSearchByKeyword c4cfg "postgresql" ⟨none, none, none⟩ 5 c4tbl).1.length ≤ 10 :=
  ⟨((c4_keyword_search.1 c4cfg "postgresql" ⟨none, none, none⟩ 5 c4tbl).1),
   ((c4_keyword_search.1 c4cfg "postgresql" ⟨none, none, none⟩ 5 c4tbl).2.1)⟩
theorem simLe_of_some {ρ : Type} (x y : ρ × Option ℚ) (a b : ℚ)
    (hx : x.2 = some a) (hy : y.2 = some b) (h : simLe x y = true) : b ≤ a := by
  rw [simLe, hx, hy] at h
  exact of_decide_eq_true h

theorem simLe_trans_some {ρ : Type} (x y z : ρ × Option ℚ)
    (hx : x.2.isSome = true) (hy : y.2.isSome = true) (hz : z.2.isSome = true)
    (h1 : simLe x y = true) (h2 : simLe y z = true) : simLe x z = true := by
  obtain ⟨a, ha⟩ := Option.isSome_iff_exists.1 hx
  obtain ⟨b, hb⟩ := Option.isSome_iff_exists.1 hy
  obtain ⟨c, hc⟩ := Option.isSome_iff_exists.1 hz
  rw [simLe, ha, hb] at h1
  rw [simLe, hb, hc] at h2
  rw [simLe, ha, hc]
  exact decide_eq_true (le_trans (of_decide_eq_true h2) (of_decide_eq_true h1))

theorem simLe_total_some {ρ : Type} (x y : ρ × Option ℚ) :
    simLe x y = true ∨ simLe y x = true := by
  rw [simLe, simLe]
  cases hx : x.2 with
  | none => right; cases y.2 <;> rfl
  | some a =>
    cases hy : y.2 with
    | none => left; rfl
    | some b =>
      rcases le_total b a with h | h
      · exact Or.inl (decide_eq_true h)
      · exact Or.inr (decide_eq_true h)

/-- The sorted-by-similarity list (of any backend) is pairwise descending in
the similarity values whenever all scores are well-defined. -/
theorem sorted_scored_desc {ρ : Type} (scored : List (ρ × Option ℚ)) (n : ℕ)
    (h : ∀ p ∈ scored, p.2.isSome = true) :
    ((sortStable simLe scored).take n).Pairwise
      (fun x y => ∀ a b, x.2 = some a → y.2 = some b → b ≤ a) := by
  have hs : (sortStable simLe scored).Pairwise (fun x y => simLe x y = true) :=
    sortStable_pairwise simLe (fun p => p.2.isSome = true)
      (fun a b c ha hb hc => simLe_trans_some a b c ha hb hc)
      (fun a b _ _ => simLe_total_some a b) scored h
  refine List.Pairwise.sublist (List.take_sublist _ _) (hs.imp ?_)
  intro x y hxy a b hx hy
  exact simLe_of_some x y a b hx hy hxy

/-! ## Claim C5 — embedding search -/
def c5cfg : StorageConfig := ⟨"p", 10000, 90⟩

def c5tbl : List SRow :=
  [⟨"e1", "p", "one", "context", mkRat 5 10, some [1, 0], none, none, 1, 1, 0⟩,
   ⟨"e2", "p", "two", "context", mkRat 5 10, some [0, 1], none, none, 2, 2, 0⟩]

def c5redis : RedisState :=
  (rStore c5cfg ⟨"p", "two", "context", mkRat 5 10, some [0, 1], none, none⟩ "e2" 2
    (rStore c5cfg ⟨"p", "one", "context", mkRat 5 10, some [1, 0], none, none⟩ "e1" 1
      ⟨[], [], [], [], [], [], []⟩).1).1

theorem cosine_same_axis (sq : ℚ → ℚ) (h1 : sq 1 = 1) :
    cosineSimilarity sq [1, 0] [1, 0] = some 1 := by
  have hsum : cosineSums [1, 0] [1, 0] = (some 1, some 1, some 1) := by decide
  rw [cosineSimilarity, hsum]
  simp only [Option.map_some', h1]
  show jsDiv (some 1) (jsMul (some 1) (some 1)) = some 1
  norm_num [jsMul, jsDiv, qmul_eq, qdiv_eq]

theorem cosine_cross_axis (sq : ℚ → ℚ) (h1 : sq 1 = 1) :
    cosineSimilarity sq [1, 0] [0, 1] = some 0 := by
  have hsum : cosineSums [1, 0] [0, 1] = (some 0, some 1, some 1) := by decide
  rw [cosineSimilarity, hsum]
  simp only [Option.map_some', h1]
  show jsDiv (some 0) (jsMul (some 1) (some 1)) = some 0
  norm_num [jsMul, jsDiv, qmul_eq, qdiv_eq]

theorem c5_sqlite_concrete (sq : ℚ → ℚ) (h1 : sq 1 = 1) :
    (sqliteSearchByEmbedding c5cfg sq [1, 0] ⟨none, none, none⟩ 9 c5tbl).1.map
      SRow.id = ["e1", "e2"] := by
  have hs : sqliteScored c5cfg sq [1, 0] ⟨none, none, none⟩ c5tbl =
      [(⟨"e1", "p", "one", "context", mkRat 5 10, some [1, 0], none, none, 1, 1, 0⟩,
        some 1),
       (⟨"e2", "p", "two", "context", mkRat 5 10, some [0, 1], none, none, 2, 2, 0⟩,
        some 0)] := by
    show [(_, cosineSimilarity sq [1, 0] [1, 0]), (_, cosineSimilarity sq [1, 0] [0, 1])] = _
    rw [cosine_same_axis sq h1, cosine_cross_axis sq h1]
  show (((sortStable simLe (sqliteScored c5cfg sq [1, 0] ⟨none, none, none⟩ c5tbl)).take
      10).map Prod.fst).map SRow.id = ["e1", "e2"]
  rw [hs]
  decide

theorem c5_redis_concrete (sq : ℚ → ℚ) (h1 : sq 1 = 1) :
    (rSearchByEmbedding c5cfg sq [1, 0] ⟨none, none, none⟩ 9 c5redis).1.map
      REntry.id = ["e1", "e2"] := by
  have hs : rScored sq [1, 0] none 9 c5redis (zrevr c5redis.zAll 0 100) =
      [("e2", cosineSimilarity sq [1, 0] [0, 1]),
       ("e1", cosineSimilarity sq [1, 0] [1, 0])] := rfl
  show ((rCollectGo 9 (((sortStable simLe (rScored sq [1, 0] none 9 c5redis
      (zrevr c5redis.zAll 0 100))).take 10).map Prod.fst) c5redis).1).map
      REntry.id = ["e1", "e2"]
  rw [hs, cosine_cross_axis sq h1, cosine_same_axis sq h1]
  decide

/-- C5: `searchByEmbedding` ranks over a bounded candidate pool (SQLite:
`LIMIT 100`; Redis: the 101 members of `ZREVRANGE … 0 100`), the returned
prefix is ordered by cosine similarity descending whenever all scores are
well-defined, and with stored embeddings `[1,0]`, `[0,1]` and query `[1,0]`
both backends rank the first entry strictly ahead of the second. -/
theorem c5_embedding_search (sq : ℚ → ℚ) (h1 : sq 1 = 1) :
    (∀ (cfg : StorageConfig) (opts : MemorySearchOptions) (tbl : List SRow),
      (sqliteCandidates cfg opts tbl).length ≤ 100) ∧
    (∀ z : List (String × ℤ), (zrevr z 0 100).length ≤ 101) ∧
    (∀ (cfg : StorageConfig) (sq' : ℚ → ℚ) (q : List ℚ)
       (opts : MemorySearchOptions) (now : ℤ) (tbl : List SRow),
      (sqliteSearchByEmbedding cfg sq' q opts now tbl).1 =
        ((sortStable simLe (sqliteScored cfg sq' q opts tbl)).take
          (jsOrNat opts.limit 10)).map Prod.fst) ∧
    (∀ (ρ : Type) (scored : List (ρ × Option ℚ)) (n : ℕ),
      (∀ p ∈ scored, p.2.isSome = true) →
      ((sortStable simLe scored).take n).Pairwise
        (fun x y => ∀ a b, x.2 = some a → y.2 = some b → b ≤ a)) ∧
    (sqliteSearchByEmbedding c5cfg sq [1, 0] ⟨none, none, none⟩ 9 c5tbl).1.map
      SRow.id = ["e1", "e2"] ∧
    (rSearchByEmbedding c5cfg sq [1, 0] ⟨none, none, none⟩ 9 c5redis).1.map
      REntry.id = ["e1", "e2"] := by
  refine ⟨?_, ?_, ?_, ?_, c5_sqlite_concrete sq h1, c5_redis_concrete sq h1⟩
  · intro cfg opts tbl
    exact List.length_take_le _ _
  · intro z
    rw [zrevr]
    simp only [show ¬((100 : ℤ) < 0) by norm_num, if_false]
    exact le_trans (List.length_take_le _ _) (by norm_num)
  · intro cfg sq' q opts now tbl
    rfl
  · intro ρ scored n h
    exact sorted_scored_desc scored n h

/-- Witness for `c5_embedding_search` (square root instantiated with the
identity, which satisfies `sq 1 = 1`). -/
theorem c5_witness :
    (sqliteSearchByEmbedding c5cfg (fun x => x) [1, 0] ⟨none, none, none⟩ 9 c5tbl).1.map
      SRow.id = ["e1", "e2"] ∧
    (rSearchByEmbedding c5cfg (fun x => x) [1, 0] ⟨none, none, none⟩ 9 c5redis).1.map
      REntry.id = ["e1", "e2"] :=
  ⟨(c5_embedding_search (fun x => x) rfl).2.2.2.2.1,
   (c5_embedding_search (fun x => x) rfl).2.2.2.2.2⟩
/-- The access-count touch applied to a returned row. -/
def bumpRow (now : ℤ) (r : SRow) : SRow :=
  { r with accessCount := r.accessCount + 1, updatedAt := now }

/-- Folding `incrementAccess` over distinct ids bumps each listed row
exactly once and leaves every other row untouched. -/
theorem foldl_incrementAccess (now : ℤ) :
    ∀ ids : List String, ids.Nodup → ∀ tbl : List SRow,
      ids.foldl (fun t i => sqliteIncrementAccess i now t) tbl =
        tbl.map (fun r => if ids.contains r.id then bumpRow now r else r) := by
  intro ids
  induction ids with
  | nil =>
    intro _ tbl
    simp only [List.foldl_nil]
    have : ∀ r ∈ tbl, (if ([] : List String).contains r.id then bumpRow now r else r) = r := by
      intro r _
      simp
    rw [List.map_congr_left this]
    exact (List.map_id tbl).symm
  | cons i ids ih =>
    intro hnd tbl
    have hni : i ∉ ids := (List.nodup_cons.1 hnd).1
    have hnd' : ids.Nodup := (List.nodup_cons.1 hnd).2
    rw [List.foldl_cons, ih hnd', sqliteIncrementAccess, List.map_map]
    refine List.map_congr_left ?_
    intro r _
    simp only [Function.comp]
    by_cases hri : r.id = i
    · have h1 : (r.id == i) = true := beq_iff_eq.2 hri
      have h5 : ids.contains r.id = false := by
        rw [hri]
        cases h : ids.contains i with
        | false => rfl
        | true => exact absurd (List.elem_iff.1 h) hni
      have h4 : (i :: ids).contains r.id = true := by simp [hri]
      simp only [h1, if_true, h4]
      show (if ids.contains r.id = true then _ else _) = _
      rw [h5]
      simp only [Bool.false_eq_true, if_false]
      rfl
    · have h1 : (r.id == i) = false := by simp [hri]
      simp only [h1, Bool.false_eq_true, if_false]
      have h4 : (i :: ids).contains r.id = ids.contains r.id := by
        rw [List.contains_cons, h1, Bool.false_or]
      rw [h4]

/-- Ids of a take-of-sort-of-filter selection are distinct whenever the
table's ids are. -/
theorem nodup_ids_take_sort (le : SRow → SRow → Bool) (p : SRow → Bool)
    (tbl : List SRow) (hnd : (tbl.map SRow.id).Nodup) (n : ℕ) :
    (((sortStable le (tbl.filter p)).take n).map SRow.id).Nodup := by
  have h1 : ((tbl.filter p).map SRow.id).Nodup :=
    hnd.sublist (List.Sublist.map _ (List.filter_sublist tbl))
  have h2 : ((sortStable le (tbl.filter p)).map SRow.id).Nodup :=
    (((sortStable_perm le (tbl.filter p)).map SRow.id).nodup_iff).2 h1
  exact h2.sublist (List.Sublist.map _ (List.take_sublist _ _))

/-! ## Claim C8 — accessCount semantics -/

/-- Redis `incrementAccess` on a live id bumps its count and refreshes
`updatedAt` (keeping the TTL), and touches no other id. -/
theorem rIncrementAccess_spec (st : RedisState) (now : ℤ) (i : String)
    (e : REntry) (he : rget st now i = some e) :
    rget (rIncrementAccess st now i) now i =
      some { e with accessCount := e.accessCount + 1, updatedAt := now } ∧
    ∀ j : String, j ≠ i → rget (rIncrementAccess st now i) now j = rget st now j := by
  rw [rIncrementAccess, he]
  set f : String × REntry × ℤ → String × REntry × ℤ := fun p =>
    if p.1 == i then (p.1, { e with accessCount := e.accessCount + 1, updatedAt := now }, p.2.2)
    else p with hf
  have hfst : ∀ p, (f p).1 = p.1 := by
    intro p
    rw [hf]
    by_cases h : p.1 == i <;> simp [h]
  have hmap : ∀ j : String, (st.entries.map f).find? (fun p => p.1 == j) =
      (st.entries.find? (fun p => p.1 == j)).map f := by
    intro j
    rw [List.find?_map]
    have heq : ((fun p : String × REntry × ℤ => p.1 == j) ∘ f) =
        (fun p : String × REntry × ℤ => p.1 == j) := by
      funext p
      simp [Function.comp, hfst p]
    rw [heq]
  constructor
  · simp only [rget] at he ⊢
    rw [hmap i]
    cases hfind : st.entries.find? (fun p => p.1 == i) with
    | none =>
      simp only [hfind] at he
      exact Option.noConfusion he
    | some p =>
      simp only [hfind, Option.map_some'] at he ⊢
      have hkey : (p.1 == i) = true :=
        @List.find?_some _ (fun p : String × REntry × ℤ => p.1 == i) p _ hfind
      by_cases hlive : now < p.2.2
      · rw [hf]
        simp only [hkey, if_true, hlive, if_true]
      · simp only [hlive, if_false] at he
        exact Option.noConfusion he
  · intro j hj
    simp only [rget]
    rw [hmap j]
    cases hfind : st.entries.find? (fun p => p.1 == j) with
    | none => rfl
    | some p =>
      have hkey : (p.1 == j) = true :=
        @List.find?_some _ (fun p : String × REntry × ℤ => p.1 == j) p _ hfind
      have hne : (p.1 == i) = false := by
        have hpj : p.1 = j := beq_iff_eq.1 hkey
        subst hpj
        simp [hj]
      simp only [Option.map_some']
      rw [hf]
      simp only [hne, Bool.false_eq_true, if_false]

/-- C8: `accessCount` starts at 0 on both backends; `searchByKeyword` and
`searchByEmbedding` bump exactly the rows they return (refreshing
`updatedAt` to the call time) and leave every other row untouched; the
type/tags/recent/important listings leave the state unchanged; Redis
`incrementAccess` bumps the entry and refreshes its `updatedAt`, touching
no other id. -/
theorem c8_access_count :
    (∀ (cfg : StorageConfig) (e : NewEntry) (id : String) (now : ℤ) (tbl : List SRow),
      (∀ r ∈ tbl, r.id ≠ id) → sqliteGetCount cfg tbl < cfg.maxMemories →
      e.projectId = cfg.projectId →
      (sqliteGet cfg id (sqliteStore cfg e id now tbl).1).map SRow.accessCount =
        some 0) ∧
    (∀ (cfg : StorageConfig) (e : NewEntry) (id : String) (now : ℤ) (st : RedisState),
      rGetCount st < cfg.maxMemories → 0 < cfg.ttlDays →
      (rget (rStore cfg e id now st).1 now id).map REntry.accessCount = some 0) ∧
    (∀ (cfg : StorageConfig) (q : String) (opts : MemorySearchOptions) (now : ℤ)
       (tbl : List SRow), (tbl.map SRow.id).Nodup →
      (sqliteSearchByKeyword cfg q opts now tbl).2 =
        tbl.map (fun r =>
          if ((sqliteSearchByKeyword cfg q opts now tbl).1.map SRow.id).contains r.id
          then bumpRow now r else r)) ∧
    (∀ (cfg : StorageConfig) (sq : ℚ → ℚ) (q : List ℚ) (opts : MemorySearchOptions)
       (now : ℤ) (tbl : List SRow), (tbl.map SRow.id).Nodup →
      (sqliteSearchByEmbedding cfg sq q opts now tbl).2 =
        tbl.map (fun r =>
          if ((sqliteSearchByEmbedding cfg sq q opts now tbl).1.map SRow.id).contains r.id
          then bumpRow now r else r)) ∧
    (∀ (cfg : StorageConfig) (ty : String) (n : ℕ) (tbl : List SRow),
      (sqliteGetByType cfg ty n tbl).2 = tbl) ∧
    (∀ (cfg : StorageConfig) (tags : List String) (n : ℕ) (tbl : List SRow),
      (sqliteGetByTags cfg tags n tbl).2 = tbl) ∧
    (∀ (cfg : StorageConfig) (n : ℕ) (tbl : List SRow),
      (sqliteGetRecent cfg n tbl).2 = tbl ∧ (sqliteGetImportant cfg n tbl).2 = tbl) ∧
    (∀ (st : RedisState) (ty : String) (n : ℕ) (now : ℤ),
      (rGetByType st ty n now).2 = st ∧ (rGetRecent st n now).2 = st ∧
      (rGetImportant st n now).2 = st) ∧
    (∀ (st : RedisState) (tags : List String) (n : ℕ) (now : ℤ),
      (rGetByTags st tags n now).2 = st) ∧
    (∀ (st : RedisState) (now : ℤ) (i : String) (e : REntry), rget st now i = some e →
      rget (rIncrementAccess st now i) now i =
        some { e with accessCount := e.accessCount + 1, updatedAt := now } ∧
      ∀ j : String, j ≠ i → rget (rIncrementAccess st now i) now j = rget st now j) := by
  refine ⟨?_, ?_, ?_, ?_, fun _ _ _ _ => rfl, fun _ _ _ _ => rfl,
    fun _ _ _ => ⟨rfl, rfl⟩, fun _ _ _ _ => ⟨rfl, rfl, rfl⟩, fun _ _ _ _ => rfl,
    rIncrementAccess_spec⟩
  · intro cfg e id now tbl hfresh hcnt hproj
    rw [sqliteStore_get_fresh cfg e id now tbl hfresh hcnt hproj]
    rfl
  · intro cfg e id now st hcnt httl
    rw [rStore_get_fresh cfg e id now st hcnt now]
    have hpos : now < now + (cfg.ttlDays : ℤ) * secondsPerDay := by
      have h1 : (1 : ℤ) ≤ (cfg.ttlDays : ℤ) := by exact_mod_cast httl
      have h2 : (0 : ℤ) < secondsPerDay := by norm_num [secondsPerDay]
      nlinarith
    simp [hpos]
  · intro cfg q opts now tbl hnd
    show ((sortStable searchOrdLe (sqliteKeywordMatches cfg q opts tbl)).take
        (jsOrNat opts.limit 10)).foldl (fun t r => sqliteIncrementAccess r.id now t) tbl = _
    rw [← List.foldl_map SRow.id (fun t i => sqliteIncrementAccess i now t)]
    exact foldl_incrementAccess now _
      (nodup_ids_take_sort searchOrdLe _ tbl hnd _) tbl
  · intro cfg sq q opts now tbl hnd
    set top := (sortStable simLe (sqliteScored cfg sq q opts tbl)).take
      (jsOrNat opts.limit 10) with htop
    have hnodup : (top.map (fun p : SRow × Option ℚ => p.1.id)).Nodup := by
      have h1 : ((sqliteScored cfg sq q opts tbl).map
          (fun p : SRow × Option ℚ => p.1.id)).Nodup := by
        rw [sqliteScored, List.map_map]
        exact nodup_ids_take_sort poolLe _ tbl hnd 100
      have h2 : (((sortStable simLe (sqliteScored cfg sq q opts tbl))).map
          (fun p : SRow × Option ℚ => p.1.id)).Nodup :=
        (((sortStable_perm simLe _).map _).nodup_iff).2 h1
      rw [htop]
      exact h2.sublist (List.Sublist.map _ (List.take_sublist _ _))
    have hrw : ((sqliteSearchByEmbedding cfg sq q opts now tbl).1).map SRow.id =
        top.map (fun p : SRow × Option ℚ => p.1.id) := by
      rw [show (sqliteSearchByEmbedding cfg sq q opts now tbl).1 =
        top.map Prod.fst from rfl, List.map_map]
      rfl
    rw [hrw]
    show top.foldl (fun t p => sqliteIncrementAccess p.1.id now t) tbl = _
    rw [← List.foldl_map (fun p : SRow × Option ℚ => p.1.id)
      (fun t i => sqliteIncrementAccess i now t)]
    exact foldl_incrementAccess now _ hnodup tbl

/-- Witness for `c8_access_count` at concrete inputs. -/
theorem c8_witness :
    (sqliteGet ⟨"p", 10000, 90⟩ "n"
      (sqliteStore ⟨"p", 10000, 90⟩ ⟨"p", "x", "context", 1, none, none, none⟩
        "n" 5 []).1).map SRow.accessCount = some 0 ∧
    (sqliteSearchByKeyword c4cfg "postgresql" ⟨none, none, none⟩ 9 c4tbl).2 =
      c4tbl.map (fun r =>
        if ((sqliteSearchByKeyword c4cfg "postgresql" ⟨none, none, none⟩ 9 c4tbl).1.map
            SRow.id).contains r.id
        then bumpRow 9 r else r) :=
  ⟨(c8_access_count.1 ⟨"p", 10000, 90⟩ ⟨"p", "x", "context", 1, none, none, none⟩
      "n" 5 [] (by intro r hr; cases hr) (by decide) rfl),
   (c8_access_count.2.2.1 c4cfg "postgresql" ⟨none, none, none⟩ 9 c4tbl (by decide))⟩
/-! ## Claim C6 — getContextForQuery -/

theorem dedupById_mem : ∀ (l : List SRow) (seen : List String) (r : SRow),
    r ∈ dedupById l seen → r ∈ l := by
  intro l
  induction l with
  | nil => intro seen r h; cases h
  | cons x l ih =>
    intro seen r h
    rw [dedupById] at h
    by_cases hc : seen.contains x.id = true
    · rw [if_pos hc] at h
      exact List.mem_cons_of_mem x (ih seen r h)
    · rw [if_neg hc] at h
      rcases List.mem_cons.1 h with rfl | h'
      · exact List.mem_cons_self _ _
      · exact List.mem_cons_of_mem x (ih _ r h')

theorem dedupById_nodup : ∀ (l : List SRow) (seen : List String),
    ((dedupById l seen).map SRow.id).Nodup ∧
    (∀ r ∈ dedupById l seen, seen.contains r.id = false) := by
  intro l
  induction l with
  | nil => intro seen; exact ⟨List.nodup_nil, by intro r h; cases h⟩
  | cons x l ih =>
    intro seen
    rw [dedupById]
    by_cases hc : seen.contains x.id = true
    · rw [if_pos hc]
      exact ih seen
    · rw [if_neg hc]
      have ih' := ih (x.id :: seen)
      constructor
      · rw [List.map_cons, List.nodup_cons]
        constructor
        · intro hmem
          obtain ⟨r, hr, hrid⟩ := List.mem_map.1 hmem
          have := ih'.2 r hr
          rw [List.contains_cons] at this
          have : (r.id == x.id) = false := by
            cases h' : (r.id == x.id) with
            | false => rfl
            | true => rw [h'] at this; simp at this
          rw [hrid] at this
          simp at this
        · exact ih'.1
      · intro r hr
        rcases List.mem_cons.1 hr with rfl | hr'
        · exact Bool.not_eq_true _ ▸ (by simpa using hc)
        · have := ih'.2 r hr'
          rw [List.contains_cons] at this
          cases h' : seen.contains r.id with
          | false => rfl
          | true => rw [h'] at this; simp at this

theorem dedupById_complete : ∀ (l : List SRow) (seen : List String) (r : SRow),
    r ∈ l → seen.contains r.id = true ∨ ∃ r' ∈ dedupById l seen, r'.id = r.id := by
  intro l
  induction l with
  | nil => intro seen r h; cases h
  | cons x l ih =>
    intro seen r h
    rw [dedupById]
    rcases List.mem_cons.1 h with rfl | h'
    · by_cases hc : seen.contains r.id = true
      · exact Or.inl hc
      · rw [if_neg hc]
        exact Or.inr ⟨r, List.mem_cons_self _ _, rfl⟩
    · by_cases hc : seen.contains x.id = true
      · rw [if_pos hc]
        exact ih seen r h'
      · rw [if_neg hc]
        rcases ih (x.id :: seen) r h' with hl | ⟨r', hr', hid⟩
        · rw [List.contains_cons] at hl
          by_cases hrx : (r.id == x.id) = true
          · exact Or.inr ⟨x, List.mem_cons_self _ _, (beq_iff_eq.1 hrx).symm⟩
          · left
            cases h'' : seen.contains r.id with
            | true => rfl
            | false =>
              rw [Bool.eq_false_iff.2 hrx, h''] at hl
              simp at hl
        · exact Or.inr ⟨r', List.mem_cons_of_mem x hr', hid⟩

theorem dedupById_append_left : ∀ (xs ys : List SRow) (seen : List String),
    (xs.map SRow.id).Nodup → (∀ x ∈ xs, seen.contains x.id = false) →
    ∃ zs, dedupById (xs ++ ys) seen = xs ++ zs := by
  intro xs
  induction xs with
  | nil => intro ys seen _ _; exact ⟨dedupById ys seen, rfl⟩
  | cons x xs ih =>
    intro ys seen hnd hseen
    rw [List.cons_append, dedupById]
    rw [if_neg (by rw [hseen x (List.mem_cons_self _ _)]; simp)]
    have hnd' : (xs.map SRow.id).Nodup := (List.nodup_cons.1 (List.map_cons SRow.id x xs ▸ hnd)).2
    have hxni : x.id ∉ xs.map SRow.id := (List.nodup_cons.1 (List.map_cons SRow.id x xs ▸ hnd)).1
    have hseen' : ∀ y ∈ xs, (x.id :: seen).contains y.id = false := by
      intro y hy
      rw [List.contains_cons]
      have h1 : (y.id == x.id) = false := by
        cases h' : (y.id == x.id) with
        | false => rfl
        | true =>
          exact absurd (beq_iff_eq.1 h' ▸ List.mem_map_of_mem SRow.id hy) hxni
      rw [h1, hseen y (List.mem_cons_of_mem x hy)]
      rfl
    obtain ⟨zs, hzs⟩ := ih ys (x.id :: seen) hnd' hseen'
    exact ⟨zs, by rw [hzs, List.cons_append]⟩

theorem intercalate_go_data (s : String) :
    ∀ (t : List String) (acc : String), ∃ rest : List Char,
      (String.intercalate.go acc s t).data = acc.data ++ rest := by
  intro t
  induction t with
  | nil =>
    intro acc
    refine ⟨[], ?_⟩
    rw [show String.intercalate.go acc s [] = acc from rfl]
    simp
  | cons b t ih =>
    intro acc
    obtain ⟨rest, hrest⟩ := ih (acc ++ s ++ b)
    refine ⟨(s.data ++ b.data) ++ rest, ?_⟩
    rw [show String.intercalate.go acc s (b :: t) =
      String.intercalate.go (acc ++ s ++ b) s t from rfl, hrest]
    show (acc.data ++ s.data ++ b.data) ++ rest = acc.data ++ (s.data ++ b.data ++ rest)
    simp [List.append_assoc]

/-- A rendered context beginning with a (nonempty) header line is never the
empty string. -/
theorem intercalate_header_ne_empty (h : String) (t : List String)
    (hh : h.data ≠ []) : String.intercalate "\n" (h :: t) ≠ "" := by
  obtain ⟨rest, hrest⟩ := intercalate_go_data "\n" t h
  intro hcontra
  have hd : (String.intercalate "\n" (h :: t)).data = [] := by rw [hcontra]
  rw [show String.intercalate "\n" (h :: t) = String.intercalate.go h "\n" t from rfl,
    hrest] at hd
  exact hh (List.append_eq_nil.1 hd).1

theorem pmHeader_data_ne_nil (cfg : StorageConfig) : (pmHeader cfg).data ≠ [] := by
  intro hcontra
  have := congrArg List.length hcontra
  rw [show (pmHeader cfg).data =
    "Project knowledge for \"".data ++ cfg.projectId.data ++ "\":".data from rfl] at this
  simp at this

/-- The id lists returned by `searchByEmbedding` are duplicate-free when
the table's ids are. -/
theorem sqliteSearchByEmbedding_ids_nodup (cfg : StorageConfig) (sq : ℚ → ℚ)
    (q : List ℚ) (opts : MemorySearchOptions) (now : ℤ) (tbl : List SRow)
    (hnd : (tbl.map SRow.id).Nodup) :
    (((sqliteSearchByEmbedding cfg sq q opts now tbl).1).map SRow.id).Nodup := by
  set top := (sortStable simLe (sqliteScored cfg sq q opts tbl)).take
    (jsOrNat opts.limit 10) with htop
  have h1 : ((sqliteScored cfg sq q opts tbl).map
      (fun p : SRow × Option ℚ => p.1.id)).Nodup := by
    rw [sqliteScored, List.map_map]
    exact nodup_ids_take_sort poolLe _ tbl hnd 100
  have h2 : (((sortStable simLe (sqliteScored cfg sq q opts tbl))).map
      (fun p : SRow × Option ℚ => p.1.id)).Nodup :=
    (((sortStable_perm simLe _).map _).nodup_iff).2 h1
  have h3 : (top.map (fun p : SRow × Option ℚ => p.1.id)).Nodup := by
    rw [htop]
    exact h2.sublist (List.Sublist.map _ (List.take_sublist _ _))
  have hrw : ((sqliteSearchByEmbedding cfg sq q opts now tbl).1).map SRow.id =
      top.map (fun p : SRow × Option ℚ => p.1.id) := by
    rw [show (sqliteSearchByEmbedding cfg sq q opts now tbl).1 =
      top.map Prod.fst from rfl, List.map_map]
    rfl
  rw [hrw]
  exact h3

/-- The id lists returned by the facade's `search` are duplicate-free when
the table's ids are. -/
theorem pmSearch_ids_nodup (cfg : StorageConfig)
    (emb : Option (String → Option (List ℚ))) (sq : ℚ → ℚ) (q : String)
    (opts : MemorySearchOptions) (now : ℤ) (tbl : List SRow)
    (hnd : (tbl.map SRow.id).Nodup) :
    (((pmSearch cfg emb sq q opts now tbl).1).map SRow.id).Nodup := by
  cases emb with
  | none =>
    simp only [pmSearch]
    exact nodup_ids_take_sort searchOrdLe _ tbl hnd _
  | some f =>
    cases hfq : f q with
    | none =>
      simp only [pmSearch, hfq]
      exact nodup_ids_take_sort searchOrdLe _ tbl hnd _
    | some v =>
      simp only [pmSearch, hfq]
      exact sqliteSearchByEmbedding_ids_nodup cfg sq v opts now tbl hnd

/-- The facade's `search` returns at most `limit` entries. -/
theorem pmSearch_length_le (cfg : StorageConfig)
    (emb : Option (String → Option (List ℚ))) (sq : ℚ → ℚ) (q : String)
    (opts : MemorySearchOptions) (now : ℤ) (tbl : List SRow) :
    ((pmSearch cfg emb sq q opts now tbl).1).length ≤ jsOrNat opts.limit 10 := by
  cases emb with
  | none =>
    simp only [pmSearch]
    exact List.length_take_le _ _
  | some f =>
    cases hfq : f q with
    | none =>
      simp only [pmSearch, hfq]
      exact List.length_take_le _ _
    | some v =>
      simp only [pmSearch, hfq]
      show (((sortStable simLe (sqliteScored cfg sq v opts tbl)).take
        (jsOrNat opts.limit 10)).map Prod.fst).length ≤ _
      rw [List.length_map]
      exact List.length_take_le _ _

/-- C6: `getContextForQuery` composes up to 5 semantically-relevant entries
followed by up to 3 high-importance entries, de-duplicated by id with the
first occurrence (the semantic result) winning, so an entry qualifying as
both appears exactly once; the rendering is a project-identifying header
plus one bullet line per entry, and the empty string (not null) is returned
when nothing qualifies. -/
theorem c6_getContextForQuery (cfg : StorageConfig)
    (emb : Option (String → Option (List ℚ))) (sq : ℚ → ℚ) (q : String)
    (now : ℤ) (tbl : List SRow) (hnd : (tbl.map SRow.id).Nodup)
    (rel imp allMems : List SRow)
    (hrel : rel = (pmSearch cfg emb sq q ⟨some 5, none, none⟩ now tbl).1)
    (himp : imp = (sqliteGetImportant cfg 3
      (pmSearch cfg emb sq q ⟨some 5, none, none⟩ now tbl).2).1)
    (hall : allMems = dedupById (rel ++ imp) []) :
    rel.length ≤ 5 ∧ imp.length ≤ 3 ∧
    (allMems.map SRow.id).Nodup ∧
    (∀ r ∈ allMems, r ∈ rel ++ imp) ∧
    (∀ r ∈ rel ++ imp, ∃ r' ∈ allMems, r'.id = r.id) ∧
    (∃ zs, allMems = rel ++ zs) ∧
    (allMems = [] → (pmGetContextForQuery cfg emb sq q now tbl).1 = "") ∧
    (allMems ≠ [] →
      (pmGetContextForQuery cfg emb sq q now tbl).1 =
        String.intercalate "\n" (pmHeader cfg :: allMems.map pmBullet) ∧
      (pmGetContextForQuery cfg emb sq q now tbl).1 ≠ "") ∧
    (∀ x : String, (∃ r ∈ rel, r.id = x) → (∃ r ∈ imp, r.id = x) →
      (allMems.map SRow.id).count x = 1) := by
  subst hrel himp hall
  refine ⟨?_, ?_, ?_, ?_, ?_, ?_, ?_, ?_, ?_⟩
  · exact pmSearch_length_le cfg emb sq q ⟨some 5, none, none⟩ now tbl
  · exact List.length_take_le _ _
  · exact (dedupById_nodup _ []).1
  · exact dedupById_mem _ []
  · intro r hr
    rcases dedupById_complete _ [] r hr with hl | h
    · cases hl
    · exact h
  · exact dedupById_append_left _ _ []
      (pmSearch_ids_nodup cfg emb sq q ⟨some 5, none, none⟩ now tbl hnd)
      (fun x _ => rfl)
  · intro hempty
    simp only [pmGetContextForQuery]
    rw [hempty]
    rfl
  · intro hne
    have hie : (dedupById ((pmSearch cfg emb sq q ⟨some 5, none, none⟩ now tbl).1 ++
        (sqliteGetImportant cfg 3
          (pmSearch cfg emb sq q ⟨some 5, none, none⟩ now tbl).2).1) []).isEmpty
        = false := by
      cases hd : dedupById ((pmSearch cfg emb sq q ⟨some 5, none, none⟩ now tbl).1 ++
          (sqliteGetImportant cfg 3
            (pmSearch cfg emb sq q ⟨some 5, none, none⟩ now tbl).2).1) [] with
      | nil => exact absurd hd hne
      | cons a l => rfl
    constructor
    · simp only [pmGetContextForQuery, hie]
      rfl
    · simp only [pmGetContextForQuery, hie]
      show String.intercalate "\n" (pmHeader cfg :: _) ≠ ""
      exact intercalate_header_ne_empty _ _ (pmHeader_data_ne_nil cfg)
  · intro x hxrel hximp
    obtain ⟨r, hrm, hrid⟩ := hxrel
    set rel := (pmSearch cfg emb sq q ⟨some 5, none, none⟩ now tbl).1 with hrelset
    set imp := (sqliteGetImportant cfg 3
      (pmSearch cfg emb sq q ⟨some 5, none, none⟩ now tbl).2).1 with himpset
    obtain ⟨r', hr'm, hr'id⟩ := (dedupById_complete (rel ++ imp) [] r
      (List.mem_append_left _ hrm)).resolve_left (by intro h; cases h)
    have hxmem : x ∈ (dedupById (rel ++ imp) []).map SRow.id := by
      rw [← hrid, ← hr'id]
      exact List.mem_map_of_mem SRow.id hr'm
    have h1 : 0 < ((dedupById (rel ++ imp) []).map SRow.id).count x :=
      List.count_pos_iff_mem.mpr hxmem
    have h2 : ((dedupById (rel ++ imp) []).map SRow.id).count x ≤ 1 :=
      List.nodup_iff_count_le_one.1 (dedupById_nodup (rel ++ imp) []).1 x
    omega

def c6cfg : StorageConfig := ⟨"p", 10000, 90⟩

def c6tbl : List SRow :=
  [⟨"a1", "p", "alpha note", "context", mkRat 9 10, none, none, none, 1, 1, 0⟩]

/-- Witness for `c6_getContextForQuery` at a concrete input where the single
entry qualifies both as top-relevant and top-important; it appears exactly
once and the rendered context is the non-empty header-plus-bullet string. -/
theorem c6_witness :
    ((dedupById ((pmSearch c6cfg none (fun x => x) "alpha" ⟨some 5, none, none⟩ 5 c6tbl).1 ++
        (sqliteGetImportant c6cfg 3
          (pmSearch c6cfg none (fun x => x) "alpha" ⟨some 5, none, none⟩ 5 c6tbl).2).1)
      []).map SRow.id).count "a1" = 1 ∧
    (pmGetContextForQuery c6cfg none (fun x => x) "alpha" 5 c6tbl).1 ≠ "" :=
  ⟨(c6_getContextForQuery c6cfg none (fun x => x) "alpha" 5 c6tbl (by decide)
      _ _ _ rfl rfl rfl).2.2.2.2.2.2.2.2 "a1" (by decide) (by decide),
   ((c6_getContextForQuery c6cfg none (fun x => x) "alpha" 5 c6tbl (by decide)
      _ _ _ rfl rfl rfl).2.2.2.2.2.2.2.1 (by decide)).2⟩
